import Mathlib

/-!
Verification development for the transaction-indexing core of the
astrostake/validator-dashboard server.

The embedded code lives in:
  * `src/server/src/services/parser.ts`  (class TxParser),
  * `src/server/src/services/syncer.ts`  (backfillWalletHistory, syncAllWallets and helpers),
  * `src/server/src/services/priceBackfill.ts` concatenation, which contains
    `fetcher.ts` with `fetchIndexerMode`,
  * `src/server/src/utils/lock.ts` (LockManager), as far as the crawl protocol needs it.

The TypeScript code manipulates untyped JSON (`any`) values, so the embedding
is built over a small JavaScript value universe `Js` with faithful truthiness,
property access (including the fact that property access on `null`/`undefined`
throws a TypeError) and template-literal string coercion.  Computations that can
throw are modelled in `Except String`; the only error value ever produced is
"TypeError", mirroring the runtime exception class.

Runtime library primitives that are not code of this repository are modelled
as follows and documented at their definition sites:
  * `Buffer.from(s, "base64")` followed by `JSON.parse` is an abstract
    parameter `dec : String → Option Js` (`none` models the decode throwing),
  * `JSON.stringify` is modelled by keeping the raw envelope value itself
    (only injectivity/determinism of the serialisation matters to any claim),
  * `Number(x)` is modelled by `jsNumber` for the value shapes that occur
    (its result is only stored, never computed with, in the embedded code).
-/

/-- A JavaScript/JSON runtime value, as manipulated by the untyped (`any`)
TypeScript code of the parser and syncer. -/
inductive Js where
  | null : Js
  | undefVal : Js
  | bool : Bool → Js
  | num : Int → Js
  | str : String → Js
  | arr : List Js → Js
  | obj : List (String × Js) → Js

/-- JavaScript truthiness: `null`, `undefined`, `false`, `0` and `""` are falsy;
every other value (including empty arrays and empty objects) is truthy. -/
def Js.truthy : Js → Bool
  | .null => false
  | .undefVal => false
  | .bool b => b
  | .num n => n != 0
  | .str s => s ≠ ""
  | .arr _ => true
  | .obj _ => true

/-- First binding for a key in an object's field list (later duplicates shadowed,
as a JS object literal would have been collapsed already). -/
def getInFields : List (String × Js) → String → Js
  | [], _ => .undefVal
  | (k, v) :: rest, key => if k = key then v else getInFields rest key

/-- Property access `v.k` on a value that is known not to be `null`/`undefined`
(JS yields `undefined` for absent properties and for property access on
primitives). -/
def Js.get : Js → String → Js
  | .obj fs, k => getInFields fs k
  | _, _ => .undefVal

/-- Throwing property access `v.k`: JS raises a TypeError when `v` is
`null` or `undefined`. -/
def Js.getE : Js → String → Except String Js
  | .null, _ => .error "TypeError"
  | .undefVal, _ => .error "TypeError"
  | v, k => .ok (v.get k)

/-- Optional-chaining access `v?.k`: `null`/`undefined` short-circuit
to `undefined` instead of throwing. -/
def Js.optGet : Js → String → Js
  | .null, _ => .undefVal
  | .undefVal, _ => .undefVal
  | v, k => v.get k

/-- Index access `v[i]` for a value known not to be `null`/`undefined`:
arrays index positionally, strings index characters, other values yield
`undefined` (numeric property lookup on plain objects does not occur in the
embedded code paths). -/
def Js.idx : Js → Nat → Js
  | .arr xs, i => (xs.get? i).getD .undefVal
  | .str s, i => ((s.toList.get? i).map fun c => Js.str c.toString).getD .undefVal
  | _, _ => .undefVal

/-- The JS `||` operator: returns the left operand if truthy, else the right. -/
def jsOr (a b : Js) : Js := if a.truthy then a else b

/-- Array test `Array.isArray`. -/
def Js.isArr : Js → Bool
  | .arr _ => true
  | _ => false

/-- Elements of an array value (only used after an `Array.isArray` guard). -/
def Js.elems : Js → List Js
  | .arr xs => xs
  | _ => []

mutual

/-- String coercion used by template literals: mirrors JS `String(v)`. -/
def Js.toStr : Js → String
  | .null => "null"
  | .undefVal => "undefined"
  | .bool true => "true"
  | .bool false => "false"
  | .num n => toString n
  | .str s => s
  | .arr xs => Js.joinArr xs
  | .obj _ => "[object Object]"

/-- JS `Array.prototype.toString` = `join(",")`, where `null`/`undefined`
elements render as the empty string. -/
def Js.joinArr : List Js → String
  | [] => ""
  | [x] => Js.elemStr x
  | x :: y :: rest => Js.elemStr x ++ "," ++ Js.joinArr (y :: rest)

/-- One element's rendering inside `Array.prototype.join`. -/
def Js.elemStr : Js → String
  | .null => ""
  | .undefVal => ""
  | v => Js.toStr v

end

/-- JS `for … of v` iteration: arrays yield their elements, strings their
characters; any other value is not iterable and throws. -/
def Js.iterE : Js → Except String (List Js)
  | .arr xs => .ok xs
  | .str s => .ok (s.toList.map fun c => Js.str c.toString)
  | _ => .error "TypeError"

/-- The JS method call `v.find(p)` where the predicate itself may throw:
only arrays have `find`; on any other receiver the call throws. -/
def jsFindE (p : Js → Except String Bool) : Js → Except String Js
  | .arr xs => goFind p xs
  | _ => .error "TypeError"
where
  goFind (p : Js → Except String Bool) : List Js → Except String Js
    | [] => .ok .undefVal
    | x :: xs => do
      let b ← p x
      if b then .ok x else goFind p xs

/-- Optional-chained `v?.find(p)`: `null`/`undefined` receivers short-circuit
to `undefined` instead of throwing. -/
def jsOptFindE (p : Js → Except String Bool) : Js → Except String Js
  | .null => .ok .undefVal
  | .undefVal => .ok .undefVal
  | v => jsFindE p v

/-- Coerce to a string for a JS string-method call (`split`, `includes`,
`match`, …): non-string receivers make the method lookup throw. -/
def Js.asStrE : Js → Except String String
  | .str s => .ok s
  | _ => .error "TypeError"

/-- Character-list prefix test (the basis of the substring operations; all
string machinery is defined structurally over character lists so that it
evaluates on concrete inputs). -/
def isPrefixL : List Char → List Char → Bool
  | [], _ => true
  | _ :: _, [] => false
  | a :: as, b :: bs => a == b && isPrefixL as bs

/-- Occurrence test for a character list inside another. -/
def containsL (sub : List Char) : List Char → Bool
  | [] => sub == []
  | c :: cs => isPrefixL sub (c :: cs) || containsL sub cs

/-- Substring test `s.includes(sub)` (an empty search string always
matches). -/
def strContains (s sub : String) : Bool :=
  sub.data == [] || containsL sub.data s.data

/-- JS `s.startsWith(pre)`. -/
def startsWithS (s pre : String) : Bool :=
  isPrefixL pre.data s.data

/-- JS `s.toLowerCase()` (ASCII as used here). -/
def lowerS (s : String) : String :=
  String.mk (s.data.map Char.toLower)

/-- The strict comparison `v === s` against a string literal. -/
def Js.eqStr : Js → String → Bool
  | .str t, s => t = s
  | _, _ => false

/-- Decimal digits to a natural number (the argument is always a nonempty
all-digit string produced by a regex match, so no failure case is needed). -/
def decNat (s : String) : Nat :=
  s.data.foldl (fun a c => a * 10 + (c.toNat - 48)) 0

/-- Scanner for the last separator-delimited segment of a character list. -/
def lastSegAux (sep : Char) : List Char → List Char → List Char
  | [], cur => cur.reverse
  | c :: cs, cur => if c == sep then lastSegAux sep cs [] else lastSegAux sep cs (c :: cur)

/-- JS `s.split(sep).pop()` for a one-character separator: the segment after
the last separator occurrence (the whole string when none occurs). -/
def splitLast (s : String) (sep : Char) : String :=
  String.mk (lastSegAux sep s.data [])

/-- Scanner splitting a character list at every separator occurrence. -/
def splitSepAux (sep : Char) : List Char → List Char → List (List Char)
  | [], cur => [cur.reverse]
  | c :: cs, cur => if c == sep then cur.reverse :: splitSepAux sep cs [] else splitSepAux sep cs (c :: cur)

/-- JS `s.split(sep)` for a one-character separator (`"".split(sep)` is
`[""]`, as in JS). -/
def splitSep (s : String) (sep : Char) : List String :=
  (splitSepAux sep s.data []).map String.mk

/-- First-occurrence replacement over character lists. -/
def replaceFirstL (pat repl : List Char) : List Char → List Char
  | [] => []
  | c :: cs =>
    if isPrefixL pat (c :: cs) then repl ++ List.drop pat.length (c :: cs)
    else c :: replaceFirstL pat repl cs

/-- JS `String.prototype.replace(pat, repl)` with a nonempty string pattern:
replaces only the first occurrence, returning the string unchanged when the
pattern does not occur. -/
def replaceFirst (s pat repl : String) : String :=
  String.mk (replaceFirstL pat.data repl.data s.data)

/-- JS `Array.prototype.join(sep)` over strings. -/
def joinSep (sep : String) : List String → String
  | [] => ""
  | [x] => x
  | x :: y :: rest => x ++ sep ++ joinSep sep (y :: rest)

/-- Leftmost match of the unanchored regex `(\d+)([a-zA-Z]+)` over a character
list: the first position holding a digit run immediately followed by a letter
yields (that maximal digit run, the maximal letter run after it).  Backtracking
inside the digit run can never help (a digit is not a letter), so advancing the
start position one character at a time is exactly the regex semantics. -/
def coinMatchL : List Char → Option (String × String)
  | [] => none
  | c :: cs =>
    if c.isDigit then
      let ds := (c :: cs).takeWhile Char.isDigit
      let rest := (c :: cs).dropWhile Char.isDigit
      match rest with
      | r :: _ =>
        if r.isAlpha then some (String.mk ds, String.mk (rest.takeWhile Char.isAlpha))
        else coinMatchL cs
      | [] => coinMatchL cs
    else coinMatchL cs

/-- JS `s.match(/(\d+)([a-zA-Z]+)/)`, reduced to its two capture groups. -/
def coinMatch (s : String) : Option (String × String) :=
  coinMatchL s.toList

/-- JS `s.match(/^(\d+)([a-zA-Z]+)$/)`: a nonempty digit run followed by a
nonempty letter run covering the whole string. -/
def coinMatchFull (s : String) : Option (String × String) :=
  let ds := s.toList.takeWhile Char.isDigit
  let rest := s.toList.dropWhile Char.isDigit
  if ds ≠ [] ∧ rest ≠ [] ∧ rest.all Char.isAlpha then
    some (String.mk ds, String.mk rest)
  else none

/-- Model of the runtime `Number(x)` conversion for the value shapes that reach
it in the embedded code (`Number(t.height)` on indexer-supplied heights, whose
result is only stored in a record, never computed with).  Non-numeric strings,
for which the runtime produces NaN, are collapsed to 0. -/
def jsNumber : Js → Int
  | .num n => n
  | .bool true => 1
  | .bool false => 0
  | .null => 0
  | .str s => if s.toList ≠ [] ∧ s.toList.all Char.isDigit then (decNat s : Int) else 0
  | _ => 0

/-- Optional-chained index access `v?.[i]`. -/
def Js.optIdx : Js → Nat → Js
  | .null, _ => .undefVal
  | .undefVal, _ => .undefVal
  | v, i => v.idx i

/-- The `.length` property as read by `messages.length > 1`: arrays and strings
have a numeric length, other values yield `undefined` (and any comparison with
`undefined` is false). -/
def jsLenOpt : Js → Option Nat
  | .arr xs => some xs.length
  | .str s => some s.length
  | _ => none

/-- The comparison `v.length > 1` (false when `.length` is `undefined`). -/
def jsLenGt1 (v : Js) : Bool :=
  match jsLenOpt v with
  | some n => decide (n > 1)
  | none => false

/-- JS `[...new Set(l)]`: deduplication preserving first-occurrence order. -/
def jsSetDedup (l : List String) : List String :=
  l.foldl (fun acc t => if acc.contains t then acc else acc ++ [t]) []

/-- The canonical parsed-transaction record produced by `TxParser.parse`
(`ParsedTx` in `src/server/src/types`).  Field values are JS values, since the
source assigns whatever the untyped message object held; the `timestamp` field
(set to the wall clock and never read by any embedded code path) is omitted. -/
structure ParsedTx where
  type : String
  amount : Js
  sender : Js
  recipient : Js
  delegator : Js
  validator : Js
  dstValidator : Js
  height : Int
  hash : String

namespace TxParser

/-- The fresh result record both `parse` and `parseBatchTx` start from, with
the given initial type tag. -/
def initResult (ty : String) : ParsedTx :=
  ⟨ty, .null, .null, .null, .null, .null, .null, 0, ""⟩

/-- Vote-option normalisation table of `TxParser.parseVoteOption`. -/
def voteOpts : List String := ["EMPTY", "YES", "ABSTAIN", "NO", "NO_WITH_VETO"]

/-- TxParser.parseVoteOption: strings are matched against the table after
stripping a `VOTE_OPTION_` prefix occurrence; other values go through
`Number(option)` and index the table, out-of-range (including NaN from
non-numeric objects) yielding UNKNOWN. -/
def parseVoteOption (option : Js) : String :=
  match option with
  | .str s =>
    let cleaned := replaceFirst s "VOTE_OPTION_" ""
    if voteOpts.contains cleaned then cleaned else s
  | .num n => if 0 ≤ n ∧ n < 5 then voteOpts.getD n.toNat "UNKNOWN" else "UNKNOWN"
  | .bool b => if b then "YES" else "EMPTY"
  | _ => "UNKNOWN"

/-- The known fee-collector module address marker skipped by
`extractRecipientFromEvents`. -/
def feeMarker : String := "17xpfvakm2amg962yls6f84z3kell8c5l"

/-- Attribute lookup `event.attributes?.find(a => a.key === key)`. -/
def findAttr (ev : Js) (key : String) : Except String Js :=
  jsOptFindE (fun a => do pure ((← a.getE "key").eqStr key)) (ev.get "attributes")

/-- One candidate check of `extractRecipientFromEvents`: when the event's
type tag matches, look up the attribute, require a truthy value, and accept
it only when it does not contain the fee-collector marker (a skipped
fee-collector hit yields `none`, so scanning continues). -/
def recipHit (ev ty : Js) (evType key : String) : Except String (Option Js) :=
  if ty.eqStr evType then
    match findAttr ev key with
    | .error e => .error e
    | .ok attr =>
      let v := attr.optGet "value"
      if v.truthy then
        match v.asStrE with
        | .error e => .error e
        | .ok s => if !(strContains s feeMarker) then .ok (some v) else .ok none
      else .ok none
  else .ok none

/-- Scanning loop of `TxParser.extractRecipientFromEvents`: first `transfer`
recipient or `coin_received` receiver that is truthy and does not contain the
fee-collector marker. -/
def recipScan : List Js → Except String Js
  | [] => .ok .null
  | ev :: rest =>
    match ev.getE "type" with
    | .error e => .error e
    | .ok ty =>
      match recipHit ev ty "transfer" "recipient" with
      | .error e => .error e
      | .ok (some v) => .ok v
      | .ok none =>
        match recipHit ev ty "coin_received" "receiver" with
        | .error e => .error e
        | .ok (some v) => .ok v
        | .ok none => recipScan rest

/-- TxParser.extractRecipientFromEvents. -/
def extractRecipientFromEvents (events : Js) : Except String Js :=
  if !(events.truthy && events.isArr) then .ok .null
  else recipScan events.elems

/-- Accumulator of `TxParser.extractAmountFromLogs`: running total, the first
denomination matched, and whether any coin matched at all. -/
structure AmtAcc where
  total : Nat
  denom : String
  found : Bool

/-- One comma-separated coin string folded into the accumulator: every
quantity the regex matches is added to the single running total, and the
denomination is only recorded for the first match. -/
def addCoin (acc : AmtAcc) (coinStr : String) : AmtAcc :=
  match coinMatch coinStr with
  | some (d, dn) => ⟨acc.total + decNat d, if acc.denom = "" then dn else acc.denom, true⟩
  | none => acc

/-- Event scan of `extractAmountFromLogs`: withdraw events fold their coins
into the accumulator; a `transfer`/`coin_received` amount attribute returns
early with its raw value (`Sum.inl`). -/
def amtScanEvents : List Js → AmtAcc → Except String (Sum Js AmtAcc)
  | [], acc => .ok (.inr acc)
  | ev :: rest, acc => do
    let ty ← ev.getE "type"
    let acc ← (if ty.eqStr "withdraw_rewards" || ty.eqStr "withdraw_commission" then do
        let attr ← findAttr ev "amount"
        if attr.truthy && (attr.get "value").truthy then do
          let s ← (attr.get "value").asStrE
          pure ((splitSep s ',').foldl addCoin acc)
        else pure acc
      else pure acc)
    if ty.eqStr "transfer" || ty.eqStr "coin_received" then do
      let attr ← findAttr ev "amount"
      if attr.truthy && (attr.get "value").truthy then
        .ok (.inl (attr.get "value"))
      else amtScanEvents rest acc
    else amtScanEvents rest acc

/-- Log-list scan of `extractAmountFromLogs`. -/
def amtScanLogs : List Js → AmtAcc → Except String (Sum Js AmtAcc)
  | [], acc => .ok (.inr acc)
  | log :: rest, acc => do
    let evJs ← log.getE "events"
    let evs ← (jsOr evJs (.arr [])).iterE
    match ← amtScanEvents evs acc with
    | .inl v => .ok (.inl v)
    | .inr acc' => amtScanLogs rest acc'

/-- TxParser.extractAmountFromLogs. -/
def extractAmountFromLogs (logs : Js) : Except String Js :=
  if !(logs.truthy && logs.isArr) then .ok .null
  else do
    match ← amtScanLogs logs.elems ⟨0, "", false⟩ with
    | .inl v => .ok v
    | .inr acc =>
      .ok (if acc.found && acc.total > 0 then .str (toString acc.total ++ acc.denom) else .null)

/-- Event scan of `TxParser.extractRecipientFromLogs`: note that, unlike
`extractRecipientFromEvents`, no fee-collector exclusion is applied here. -/
def recipLogScanEvents : List Js → Except String (Option Js)
  | [] => .ok none
  | ev :: rest => do
    let ty ← ev.getE "type"
    if ty.eqStr "transfer" then do
      let attr ← findAttr ev "recipient"
      let v := attr.optGet "value"
      if v.truthy then .ok (some v) else recipLogScanEvents rest
    else if ty.eqStr "coin_received" then do
      let attr ← findAttr ev "receiver"
      let v := attr.optGet "value"
      if v.truthy then .ok (some v) else recipLogScanEvents rest
    else if ty.eqStr "withdraw_rewards" || ty.eqStr "withdraw_commission" then do
      let attr ← jsOptFindE
        (fun a => do
          let k ← a.getE "key"
          pure (k.eqStr "recipient" || k.eqStr "withdraw_address"))
        (ev.get "attributes")
      let v := attr.optGet "value"
      if v.truthy then .ok (some v) else recipLogScanEvents rest
    else recipLogScanEvents rest

/-- Log-list scan of `extractRecipientFromLogs`. -/
def recipLogScan : List Js → Except String Js
  | [] => .ok .null
  | log :: rest => do
    let evJs ← log.getE "events"
    let evs ← (jsOr evJs (.arr [])).iterE
    match ← recipLogScanEvents evs with
    | some v => .ok v
    | none => recipLogScan rest

/-- TxParser.extractRecipientFromLogs. -/
def extractRecipientFromLogs (logs : Js) : Except String Js :=
  if !(logs.truthy && logs.isArr) then .ok .null
  else recipLogScan logs.elems

/-- Running reward/commission totals of `TxParser.enhanceWithdrawData`. -/
structure WdAcc where
  reward : Nat
  commission : Nat
  denom : String

/-- Event loop of `enhanceWithdrawData`: `withdraw_rewards` amounts accumulate
into the reward total (also refining validator/delegator when still unset),
`withdraw_commission` amounts into the commission total; only the first regex
match of each amount attribute contributes, and the denomination is the first
one matched overall. -/
def enhanceScan : List Js → ParsedTx → WdAcc → Except String (ParsedTx × WdAcc)
  | [], r, acc => .ok (r, acc)
  | ev :: rest, r, acc => do
    let ty ← ev.getE "type"
    let (r, acc) ←
      (if ty.eqStr "withdraw_rewards" then do
        let attr ← findAttr ev "amount"
        let acc ←
          (if (attr.optGet "value").truthy then do
            let s ← (attr.get "value").asStrE
            pure (match coinMatch s with
              | some (d, dn) =>
                (⟨acc.reward + decNat d, acc.commission,
                  if acc.denom = "" then dn else acc.denom⟩ : WdAcc)
              | none => acc)
          else pure acc)
        let r ←
          (if !r.validator.truthy then do
            let vAttr ← findAttr ev "validator"
            if (vAttr.optGet "value").truthy then
              pure { r with validator := vAttr.get "value" }
            else pure r
          else pure r)
        let r ←
          (if !r.delegator.truthy then do
            let dAttr ← findAttr ev "delegator"
            if (dAttr.optGet "value").truthy then
              pure { r with delegator := dAttr.get "value" }
            else pure r
          else pure r)
        pure (r, acc)
      else pure (r, acc))
    let acc ←
      (if ty.eqStr "withdraw_commission" then do
        let attr ← findAttr ev "amount"
        if (attr.optGet "value").truthy then do
          let s ← (attr.get "value").asStrE
          pure (match coinMatch s with
            | some (d, dn) =>
              (⟨acc.reward, acc.commission + decNat d,
                if acc.denom = "" then dn else acc.denom⟩ : WdAcc)
            | none => acc)
        else pure acc
      else pure acc)
    enhanceScan rest r acc

/-- TxParser.enhanceWithdrawData: re-derives a withdrawal's settled amount
(with a reward/commission split when both contributed) and its recipient from
the transaction's emitted events. -/
def enhanceWithdrawData (txResponse : Js) (result : ParsedTx) :
    Except String ParsedTx := do
  let evVal := jsOr (txResponse.get "events") (.arr [])
  let evs ← evVal.iterE
  let (r, acc) ← enhanceScan evs result ⟨0, 0, ""⟩
  let grand := acc.reward + acc.commission
  let r :=
    if grand > 0 then
      if acc.reward > 0 && acc.commission > 0 then
        { r with amount := .str (toString grand ++ acc.denom ++ " (R:" ++ toString acc.reward ++ "+C:" ++ toString acc.commission ++ ")") }
      else
        { r with amount := .str (toString grand ++ acc.denom) }
    else r
  if !r.recipient.truthy then do
    let v ← extractRecipientFromEvents evVal
    pure { r with recipient := v }
  else pure r

/-- TxParser.extractByPattern: the priority-ordered field resolver over known
Cosmos SDK message shapes, including the cross-chain packet decode (which
early-returns) and the nested authorized-execution block. -/
def extractByPattern (dec : String → Option Js) (msg : Js) (result : ParsedTx) :
    Except String ParsedTx := do
  let amountF ← msg.getE "amount"
  let r := result
  let r :=
    if amountF.truthy then
      if amountF.isArr then
        if (amountF.idx 0).truthy then
          { r with amount := .str (Js.toStr ((amountF.idx 0).get "amount") ++ Js.toStr ((amountF.idx 0).get "denom")) }
        else { r with amount := .null }
      else if (amountF.get "amount").truthy && (amountF.get "denom").truthy then
        { r with amount := .str (Js.toStr (amountF.get "amount") ++ Js.toStr (amountF.get "denom")) }
      else r
    else r
  let tokenF := msg.get "token"
  let r :=
    if tokenF.truthy && (tokenF.get "amount").truthy && (tokenF.get "denom").truthy then
      { r with amount := .str (Js.toStr (tokenF.get "amount") ++ Js.toStr (tokenF.get "denom")) }
    else r
  let valueF := msg.get "value"
  let r :=
    if valueF.truthy && (valueF.get "amount").truthy && (valueF.get "denom").truthy then
      { r with amount := .str (Js.toStr (valueF.get "amount") ++ Js.toStr (valueF.get "denom")) }
    else r
  let isRecv ←
    (if strContains r.type "RecvPacket" then pure true
    else match msg.get "@type" with
      | .null => pure false
      | .undefVal => pure false
      | .str s => pure (strContains s "RecvPacket")
      | _ => (.error "TypeError" : Except String Bool))
  let packetHit : Option ParsedTx :=
    if isRecv && (msg.get "packet").truthy && ((msg.get "packet").get "data").truthy then
      match (msg.get "packet").get "data" with
      | .str s =>
        match dec s with
        | some .null => none
        | some .undefVal => none
        | some d =>
          let r1 := if (d.get "receiver").truthy then { r with recipient := d.get "receiver" } else r
          let r2 := if (d.get "sender").truthy then { r1 with sender := d.get "sender" } else r1
          let r3 :=
            if (d.get "amount").truthy && (d.get "denom").truthy then
              { r2 with amount := .str (Js.toStr (d.get "amount") ++ Js.toStr (d.get "denom")) }
            else r2
          some { r3 with type := "IBC Receive" }
        | none => none
      | _ => none
    else none
  match packetHit with
  | some rr => return rr
  | none => do
    let sVal :=
      jsOr (msg.get "from_address") (jsOr (msg.get "sender") (jsOr (msg.get "signer")
        (jsOr (msg.get "voter") (jsOr (msg.get "granter") (jsOr (msg.get "depositor")
        (jsOr (msg.get "proposer") (jsOr (msg.get "delegator_address") (msg.get "executor"))))))))
    let r := { r with sender := sVal }
    let rcVal :=
      jsOr (msg.get "to_address") (jsOr (msg.get "receiver")
        (jsOr (msg.get "recipient") (msg.get "grantee")))
    let r := { r with recipient := rcVal }
    let r :=
      if (msg.get "inputs").truthy && (msg.get "outputs").truthy then
        let i0 := (msg.get "inputs").idx 0
        let o0 := (msg.get "outputs").idx 0
        let amt := (i0.optGet "coins").optIdx 0
        let rA := { r with sender := i0.optGet "address", recipient := o0.optGet "address" }
        if amt.truthy then
          { rA with amount := .str (Js.toStr (amt.get "amount") ++ Js.toStr (amt.get "denom")) }
        else rA
      else r
    let dVal :=
      jsOr (msg.get "delegator_address") (jsOr (msg.get "delegator") (jsOr (msg.get "voter")
        (jsOr (msg.get "grantee") (jsOr (msg.get "depositor") (msg.get "sender")))))
    let r := { r with delegator := dVal }
    let vVal :=
      jsOr (msg.get "validator_address") (jsOr (msg.get "validator_src_address")
        (jsOr (msg.get "validator_addr") (msg.get "source_validator")))
    let r := { r with validator := vVal }
    let r := { r with dstValidator := jsOr (msg.get "validator_dst_address") (msg.get "destination_validator") }
    let r :=
      if (msg.get "proposal_id").truthy then
        if (msg.get "option").truthy then
          { r with amount := .str ("Prop #" ++ Js.toStr (msg.get "proposal_id") ++ ": " ++ parseVoteOption (msg.get "option")) }
        else r
      else r
    let r := if strContains r.type "Unjail" then { r with amount := .str "Unjail" } else r
    if strContains r.type "Exec" && (msg.get "msgs").isArr then do
      let fnd ← jsFindE
        (fun m => do
          let t ← (jsOr (← m.getE "@type") (.str "")).asStrE
          let tl := lowerS t
          pure (strContains tl "delegate" || strContains tl "send" || strContains tl "transfer"))
        (msg.get "msgs")
      let meaningful := jsOr fnd ((msg.get "msgs").idx 0)
      if meaningful.truthy then do
        let rawInner ← (jsOr (meaningful.get "@type") (.str "")).asStrE
        let cleaned := replaceFirst (splitLast rawInner '.') "Msg" ""
        let innerClean := if cleaned = "" then "InnerTx" else cleaned
        let r := { r with type := "Exec/" ++ innerClean }
        let mAmt := meaningful.get "amount"
        let r ←
          (if mAmt.truthy then
            if mAmt.isArr then do
              let coin := mAmt.idx 0
              let ca ← coin.getE "amount"
              let cd ← coin.getE "denom"
              pure { r with amount := .str (Js.toStr ca ++ Js.toStr cd) }
            else if (mAmt.get "amount").truthy && (mAmt.get "denom").truthy then
              pure { r with amount := .str (Js.toStr (mAmt.get "amount") ++ Js.toStr (mAmt.get "denom")) }
            else pure r
          else if (meaningful.get "value").truthy &&
              ((meaningful.get "value").get "amount").truthy then
            pure { r with amount := .str (Js.toStr ((meaningful.get "value").get "amount") ++ Js.toStr ((meaningful.get "value").get "denom")) }
          else pure r)
        let r := if (meaningful.get "delegator_address").truthy then
            { r with delegator := meaningful.get "delegator_address" } else r
        let r := if (meaningful.get "validator_address").truthy then
            { r with validator := meaningful.get "validator_address" } else r
        let r := if (meaningful.get "from_address").truthy then
            { r with sender := meaningful.get "from_address" } else r
        let r := if (meaningful.get "to_address").truthy then
            { r with recipient := meaningful.get "to_address" } else r
        return r
      else return r
    else return r

/-- TxParser.parseBatchTx: multi-message transactions (batch withdrawals,
batched client updates, and the default first-message fallback). -/
def parseBatchTx (dec : String → Option Js) (txResponse : Js) (messages : List Js) :
    Except String ParsedTx := do
  let r := initResult "Batch"
  let types ← messages.mapM (fun m => do
    let t ← (jsOr (← m.getE "@type") (.str "")).asStrE
    pure (splitLast t '.'))
  let uniqueTypes := jsSetDedup types
  if uniqueTypes.any (fun t => strContains t "Withdraw") then do
    let hasReward := types.any (fun t => strContains t "WithdrawDelegatorReward")
    let hasCommission := types.any (fun t => strContains t "WithdrawValidatorCommission")
    let tyA :=
      if hasReward && hasCommission then "BatchWithdraw(Reward+Commission)"
      else if types.length > 1 then "BatchWithdraw(" ++ toString types.length ++ ")"
      else if types.headD "" = "" then "Withdraw" else types.headD ""
    let r := { r with type := tyA }
    let firstMsg := messages.headD .undefVal
    let dA ← firstMsg.getE "delegator_address"
    let r := { r with delegator := jsOr dA (firstMsg.get "delegator") }
    let vA := firstMsg.get "validator_address"
    let r ←
      (if vA.truthy then pure { r with validator := vA }
      else do
        let fndVal ← jsFindE (fun m => do pure (← m.getE "validator_address").truthy)
          (.arr messages)
        pure { r with validator := fndVal.optGet "validator_address" })
    let r := { r with sender := r.delegator }
    enhanceWithdrawData txResponse r
  else if uniqueTypes.all (fun t => strContains t "UpdateClient") then do
    let firstMsg := messages.headD .undefVal
    let sg ← firstMsg.getE "signer"
    return { r with type := "BatchUpdateClient(" ++ toString types.length ++ ")", sender := sg, amount := .str "IBC Update" }
  else do
    let r := { r with type := if types.headD "" = "" then "BatchTx" else types.headD "" }
    let r ← extractByPattern dec (messages.headD .undefVal) r
    let r ←
      (if !r.amount.truthy then do
        let v ← extractAmountFromLogs (txResponse.get "logs")
        pure { r with amount := v }
      else pure r)
    let r ←
      (if !r.recipient.truthy then do
        let v1 ← extractRecipientFromEvents (txResponse.get "events")
        if v1.truthy then pure { r with recipient := v1 }
        else do
          let v2 ← extractRecipientFromLogs (txResponse.get "logs")
          pure { r with recipient := v2 }
      else pure r)
    return r

/-- TxParser.parse: the interpreter's main entry point.  The `dec` parameter
models the runtime pipeline `JSON.parse(Buffer.from(data, "base64")
.toString("utf-8"))`; `none` stands for the pipeline throwing. -/
def parse (dec : String → Option Js) (txResponse : Js) : Except String ParsedTx := do
  let result := initResult "Unknown"
  if !(txResponse.truthy && (txResponse.get "tx").truthy) then return result
  let tx := txResponse.get "tx"
  let messagesV := jsOr ((tx.get "body").optGet "messages") (.arr [])
  if jsLenGt1 messagesV then
    match messagesV with
    | .arr msgs => do
      let fnd ← jsFindE
        (fun m => do
          let s ← (jsOr (← m.getE "@type") (.str "")).asStrE
          pure (strContains s "RecvPacket"))
        messagesV
      if fnd.truthy then do
        let r0 := { result with type := "IBC Receive" }
        let r ← extractByPattern dec fnd r0
        if r.amount.truthy && r.recipient.truthy then return r
        parseBatchTx dec txResponse msgs
      else
        parseBatchTx dec txResponse msgs
    | _ => .error "TypeError"
  else do
    let msg := messagesV.idx 0
    if !msg.truthy then return result
    let rawType ← (jsOr (msg.get "@type") (.str "")).asStrE
    let p := splitLast rawType '.'
    let result := { result with type := if p = "" then "Tx" else p }
    let r ← extractByPattern dec msg result
    let r ← (if strContains r.type "Withdraw" then enhanceWithdrawData txResponse r else pure r)
    let r ←
      (if !r.amount.truthy then do
        let v ← extractAmountFromLogs (txResponse.get "logs")
        pure { r with amount := v }
      else pure r)
    let r ←
      (if !r.recipient.truthy then do
        let v1 ← extractRecipientFromEvents (txResponse.get "events")
        if v1.truthy then pure { r with recipient := v1 }
        else do
          let v2 ← extractRecipientFromLogs (txResponse.get "logs")
          pure { r with recipient := v2 }
      else pure r)
    return r

end TxParser

/-- Every JS value has positive size (used for the nested-message recursion). -/
def Js.one_le_sizeOf : (v : Js) → 1 ≤ sizeOf v
  | .null => by simp
  | .undefVal => by simp
  | .bool _ => by simp
  | .num _ => by simp
  | .str _ => by simp
  | .arr _ => by simp
  | .obj _ => by simp

/-- Field lookup never increases size. -/
def sizeOf_getInFields_le : (fs : List (String × Js)) → (k : String) →
    sizeOf (getInFields fs k) ≤ sizeOf fs
  | [], _ => by simp [getInFields]
  | (k', v) :: rest, k => by
    simp only [getInFields]
    by_cases h : k' = k
    · simp only [h, if_pos rfl]
      simp
      omega
    · have ih := sizeOf_getInFields_le rest k
      simp only [if_neg h]
      simp
      omega

/-- Property access never increases size. -/
def Js.sizeOf_get_le : (v : Js) → (k : String) → sizeOf (Js.get v k) ≤ sizeOf v
  | .obj fs, k => by
    have h1 := sizeOf_getInFields_le fs k
    simp only [Js.get]
    simp
    omega
  | .null, _ => by simp [Js.get]
  | .undefVal, _ => by simp [Js.get]
  | .bool _, _ => by simp [Js.get]
  | .num _, _ => by simp [Js.get]
  | .str _, _ => by simp [Js.get]
  | .arr _, _ => by simp [Js.get]

/-- Taking an array's element list strictly decreases size. -/
def Js.sizeOf_elems_lt : (v : Js) → sizeOf (Js.elems v) < 1 + sizeOf v
  | .arr xs => by simp [Js.elems]; omega
  | .null => by simp [Js.elems]
  | .undefVal => by simp [Js.elems]
  | .bool _ => by simp [Js.elems]
  | .num _ => by simp [Js.elems]
  | .str _ => by simp [Js.elems]
  | .obj _ => by simp [Js.elems]

/-- Size bound for the nested-message recursion of `extractAllMessages`. -/
def elems_get_lt_cons (m : Js) (rest : List Js) :
    sizeOf ((Js.get m "msgs").elems) < sizeOf (m :: rest) := by
  have h1 := Js.sizeOf_elems_lt (Js.get m "msgs")
  have h2 := Js.sizeOf_get_le m "msgs"
  simp only [List.cons.sizeOf_spec]
  omega

/-- Size bound for the tail recursion of `extractAllMessages`. -/
def tail_lt_cons (m : Js) (rest : List Js) : sizeOf rest < sizeOf (m :: rest) := by
  have := Js.one_le_sizeOf m
  simp only [List.cons.sizeOf_spec]
  omega

/-- syncer.ts extractAllMessages: flattens a message list, recursing into the
nested message array of any authorized-execution (`MsgExec`) wrapper.  Property
access on a `null` list element throws, hence the `Except`. -/
def extractAllMessages : List Js → Except String (List Js)
  | [] => .ok []
  | m :: rest => do
    let ty ← m.getE "@type"
    let nested ←
      (if ty.eqStr "/cosmos.authz.v1beta1.MsgExec" && (m.get "msgs").isArr then
        extractAllMessages (m.get "msgs").elems
      else pure [])
    let tail ← extractAllMessages rest
    .ok (m :: (nested ++ tail))
termination_by l => sizeOf l
decreasing_by
  · exact elems_get_lt_cons _ _
  · exact tail_lt_cons _ _

/-- Result of syncer.ts parseMessage: per-message key fields. -/
structure PMsg where
  type : String
  amount : Js
  sender : Js
  recipient : Js
  delegator : Js
  validator : Js
  dstValidator : Js

/-- syncer.ts parseMessage: single-message field extraction used for relevance
filtering and aggregation (independent of, and ordered differently from, the
TxParser resolver).  `dec` is the same runtime base64+JSON decode model. -/
def parseMessage (dec : String → Option Js) (msg : Js) : Except String PMsg := do
  let ty0 ← (jsOr (← msg.getE "@type") (.str "")).asStrE
  let p := splitLast ty0 '.'
  let type := if p = "" then "Unknown" else p
  let recvHit : Option PMsg :=
    if strContains type "RecvPacket" && (msg.get "packet").truthy &&
        ((msg.get "packet").get "data").truthy then
      match (msg.get "packet").get "data" with
      | .str s =>
        match dec s with
        | some .null => none
        | some .undefVal => none
        | some d =>
          some ⟨"IBCRecv",
            (if (d.get "amount").truthy && (d.get "denom").truthy then
              Js.str (Js.toStr (d.get "amount") ++ Js.toStr (d.get "denom"))
            else Js.null),
            jsOr (d.get "sender") .null,
            jsOr (d.get "receiver") .null,
            .null, .null, .null⟩
        | none => none
      | _ => none
    else none
  match recvHit with
  | some r => return r
  | none => do
    let amountF := msg.get "amount"
    let amount :=
      if amountF.truthy then
        if amountF.isArr then
          (if (amountF.idx 0).truthy then
            Js.str (Js.toStr ((amountF.idx 0).get "amount") ++ Js.toStr ((amountF.idx 0).get "denom"))
          else Js.null)
        else if (amountF.get "amount").truthy && (amountF.get "denom").truthy then
          Js.str (Js.toStr (amountF.get "amount") ++ Js.toStr (amountF.get "denom"))
        else Js.null
      else Js.null
    let tokenF := msg.get "token"
    let amount :=
      if !amount.truthy && tokenF.truthy && (tokenF.get "amount").truthy &&
          (tokenF.get "denom").truthy then
        Js.str (Js.toStr (tokenF.get "amount") ++ Js.toStr (tokenF.get "denom"))
      else amount
    let valueF := msg.get "value"
    let amount :=
      if !amount.truthy && valueF.truthy && (valueF.get "amount").truthy &&
          (valueF.get "denom").truthy then
        Js.str (Js.toStr (valueF.get "amount") ++ Js.toStr (valueF.get "denom"))
      else amount
    let sV :=
      jsOr (msg.get "from_address") (jsOr (msg.get "sender") (jsOr (msg.get "signer")
        (jsOr (msg.get "delegator_address") (jsOr (msg.get "granter") (jsOr (msg.get "depositor")
        (jsOr (msg.get "voter") (jsOr (msg.get "proposer") (jsOr (msg.get "executor") .null))))))))
    let rV :=
      jsOr (msg.get "to_address") (jsOr (msg.get "recipient")
        (jsOr (msg.get "receiver") (jsOr (msg.get "grantee") .null)))
    let dV :=
      jsOr (msg.get "delegator_address") (jsOr (msg.get "delegator") (jsOr (msg.get "voter")
        (jsOr (msg.get "depositor") (jsOr (msg.get "sender") .null))))
    let vV :=
      jsOr (msg.get "validator_address") (jsOr (msg.get "validator_src_address")
        (jsOr (msg.get "source_validator") (jsOr (msg.get "validator_addr") .null)))
    let dstV := jsOr (msg.get "validator_dst_address") (jsOr (msg.get "destination_validator") .null)
    return ⟨type, amount, sV, rV, dV, vV, dstV⟩

/-- Denomination-map update of syncer.ts aggregateAmounts (JS object key
insertion order: first-seen order is preserved by `Object.entries`). -/
def upsertDenom : List (String × Nat) → String → Nat → List (String × Nat)
  | [], dn, v => [(dn, v)]
  | (k, x) :: rest, dn, v =>
    if k = dn then (k, x + v) :: rest else (k, x) :: upsertDenom rest dn v

/-- syncer.ts aggregateAmounts: groups the anchored coin-string amounts by
denomination with arbitrary-precision totals; one group renders as a single
coin string, several groups as a comma-separated join.  The `a !== null`
filter keeps exactly the string amounts, since `parseMessage` only produces
strings or null. -/
def aggregateAmounts (amounts : List Js) : Js :=
  let validAmounts := amounts.filterMap (fun a => match a with | .str s => some s | _ => none)
  if validAmounts.length = 0 then .null
  else
    let denomMap := validAmounts.foldl
      (fun m s =>
        match coinMatchFull s with
        | some (d, dn) => upsertDenom m dn (decNat d)
        | none => m)
      ([] : List (String × Nat))
    let results := denomMap.map (fun e => toString e.2 ++ e.1)
    if results.length = 1 then .str (results.headD "")
    else if results.length > 1 then .str (joinSep ", " results)
    else .null

/-- Truthiness of a nullable DB string column as tested by the JS code. -/
def optStrTruthy : Option String → Bool
  | some s => s ≠ ""
  | none => false

/-- The chain fields read by the crawl body. -/
structure Chain where
  rest : String
  priceUsd : Option Int

/-- A tracked wallet row as read by `backfillWalletHistory` (the price is a
runtime number; it is only ever copied into records, never computed with). -/
structure Wallet where
  id : Nat
  address : String
  valAddress : Option String
  withdrawalAddress : Option String
  label : String
  notifyWalletTx : Bool
  notifyValidatorTx : Bool
  webhookUrl : Option String
  chain : Chain

/-- A persisted wallet-context transaction record (`walletTransaction` row);
`rawTx` keeps the envelope value itself, standing for its JSON serialisation. -/
structure WalletTxRec where
  hash : String
  height : Int
  timestampRaw : Js
  type : String
  amount : Js
  sender : Js
  recipient : Js
  direction : String
  rawTx : Js
  walletId : Nat
  priceAtTx : Int

/-- A persisted validator-context transaction record (`validatorTransaction`
row). -/
structure ValidatorTxRec where
  hash : String
  height : Int
  timestampRaw : Js
  type : String
  amount : Js
  delegator : Js
  validator : Js
  dstValidator : Js
  category : String
  rawTx : Js
  walletId : Nat
  priceAtTx : Int

/-- The two persisted record sets the crawl writes into. -/
structure Db where
  wtx : List WalletTxRec
  vtx : List ValidatorTxRec

/-- One dispatched Discord notification (the arguments of
`sendDiscordNotification`, which never throws). -/
structure Notif where
  walletId : Nat
  envelope : Js
  txType : String
  amount : Js
  category : String

/-- The pre-insert existence check on the wallet-transaction category:
`findUnique` on the composite key (hash, walletId). -/
def hasWKey (db : Db) (hs : String) (wid : Nat) : Bool :=
  db.wtx.any (fun r => r.hash == hs && r.walletId == wid)

/-- The pre-insert existence check on the validator-transaction category. -/
def hasVKey (db : Db) (hs : String) (wid : Nat) : Bool :=
  db.vtx.any (fun r => r.hash == hs && r.walletId == wid)

/-- The batch type-tag synthesis shared by the wallet and validator record
paths (syncer.ts lines 310-330 and 413-432). -/
def batchTxType (parserType : String) (msgs : List PMsg) : String :=
  if msgs.length = 1 then parserType
  else
    let types := msgs.map PMsg.type
    let uniqueTypes := jsSetDedup types
    if startsWithS parserType "Exec/" then
      parserType ++ "(batch:" ++ toString msgs.length ++ ")"
    else if uniqueTypes.length = 1 then
      uniqueTypes.headD "" ++ "(batch:" ++ toString msgs.length ++ ")"
    else
      joinSep "+" (uniqueTypes.take 2) ++ "(batch:" ++ toString msgs.length ++ ")"

/-- The state-independent work computed for one envelope before any store
access: key, height, price snapshot, the TxParser result and the per-message
relevance lists.  `none` models the `continue` on a missing hash or height. -/
structure TxWork where
  hashS : String
  h : Int
  tRaw : Js
  tsRaw : Js
  price : Int
  parserType : String
  parserAmount : Js
  parserRecipient : Js
  myW : List PMsg
  myV : List PMsg

/-- Envelope preprocessing of the per-transaction loop body (syncer.ts lines
263-288 and the validator relevance filter of lines 386-396): everything here
depends only on the envelope, the wallet and the decode model — not on the
store.  Throws propagate to the page transaction. -/
def txPrep (dec : String → Option Js) (w : Wallet) (t : Js) :
    Except String (Option TxWork) := do
  let th ← t.getE "txhash"
  if !th.truthy || !(t.get "height").truthy then return none
  let hashS ← th.asStrE
  let h := jsNumber (t.get "height")
  let price := w.chain.priceUsd.getD 0
  let messagesV := jsOr (((t.get "tx").optGet "body").optGet "messages") (.arr [])
  let msgsL ← messagesV.iterE
  let allMessages ← extractAllMessages msgsL
  let pr ← TxParser.parse dec t
  let parsedList ← allMessages.mapM (parseMessage dec)
  let myW := parsedList.filter (fun p =>
    let isMyAction := p.sender.eqStr w.address || p.delegator.eqStr w.address
    let isMyReceipt := p.recipient.eqStr w.address ||
      (optStrTruthy w.withdrawalAddress && p.recipient.eqStr (w.withdrawalAddress.getD ""))
    isMyAction || isMyReceipt)
  let myV :=
    if optStrTruthy w.valAddress then
      parsedList.filter (fun p =>
        p.validator.eqStr (w.valAddress.getD "") || p.dstValidator.eqStr (w.valAddress.getD ""))
    else []
  return some ⟨hashS, h, t, t.get "timestamp", price, pr.type, pr.amount, pr.recipient, myW, myV⟩

/-- Wallet-context insert decision for one envelope (syncer.ts lines 291-382):
aggregate all relevant messages into one record, skipping creation, the
notification and the counter when the (hash, walletId) key already exists. -/
def wApply (w : Wallet) (pr : TxWork) (db : Db) : Db × Nat × List Notif :=
  match pr.myW with
  | [] => (db, 0, [])
  | firstMsg :: _ =>
    if hasWKey db pr.hashS w.id then (db, 0, [])
    else
      let isMyAction := firstMsg.sender.eqStr w.address || firstMsg.delegator.eqStr w.address
      let isMyReceipt := firstMsg.recipient.eqStr w.address ||
        (optStrTruthy w.withdrawalAddress && firstMsg.recipient.eqStr (w.withdrawalAddress.getD ""))
      let direction := if isMyAction && !isMyReceipt then "OUT"
        else if !isMyAction && isMyReceipt then "IN" else "SELF"
      let aggregatedAmount := aggregateAmounts (pr.myW.map PMsg.amount)
      let txType := batchTxType pr.parserType pr.myW
      let finalAmount0 := jsOr aggregatedAmount (.str "0")
      let shouldUseParserAmount := strContains txType "Withdraw" || strContains txType "IBC" ||
        strContains txType "RecvPacket"
      let finalAmount := if shouldUseParserAmount && pr.parserAmount.truthy then pr.parserAmount
        else finalAmount0
      let finalRecipient0 := jsOr firstMsg.recipient (if isMyReceipt then .str w.address else .null)
      let finalRecipient := if strContains txType "Withdraw" && pr.parserRecipient.truthy then
          pr.parserRecipient
        else finalRecipient0
      let senderVal := jsOr firstMsg.sender (if isMyAction then .str w.address else .null)
      let rec0 : WalletTxRec :=
        ⟨pr.hashS, pr.h, pr.tsRaw, txType, finalAmount, senderVal, finalRecipient, direction,
          pr.tRaw, w.id, pr.price⟩
      let notifs :=
        if w.notifyWalletTx && optStrTruthy w.webhookUrl then
          if (finalAmount.truthy && !(finalAmount.eqStr "0")) || strContains txType "Send" ||
              strContains txType "Withdraw" then
            [⟨w.id, pr.tRaw, txType, finalAmount, "wallet"⟩]
          else []
        else []
      (⟨db.wtx ++ [rec0], db.vtx⟩, 1, notifs)

/-- Validator-context insert decision for one envelope (syncer.ts lines
385-463). -/
def vApply (w : Wallet) (pr : TxWork) (db : Db) : Db × Nat × List Notif :=
  if !(optStrTruthy w.valAddress) then (db, 0, [])
  else
    match pr.myV with
    | [] => (db, 0, [])
    | firstMsg :: _ =>
      if hasVKey db pr.hashS w.id then (db, 0, [])
      else
        let category := if firstMsg.delegator.eqStr w.address then "own" else "incoming"
        let aggregatedAmount := aggregateAmounts (pr.myV.map PMsg.amount)
        let txType := batchTxType pr.parserType pr.myV
        let rec0 : ValidatorTxRec :=
          ⟨pr.hashS, pr.h, pr.tsRaw, txType, jsOr aggregatedAmount .null,
            jsOr firstMsg.delegator .null,
            jsOr firstMsg.validator (.str (w.valAddress.getD "")),
            jsOr firstMsg.dstValidator .null, category, pr.tRaw, w.id, pr.price⟩
        let notifs :=
          if optStrTruthy w.webhookUrl && category = "incoming" && w.notifyValidatorTx then
            [⟨w.id, pr.tRaw, txType, jsOr aggregatedAmount .null, "validator-incoming"⟩]
          else []
        (⟨db.wtx, db.vtx ++ [rec0]⟩, 1, notifs)

/-- One iteration of the per-transaction loop inside the page's store
transaction. -/
def stepTx (dec : String → Option Js) (w : Wallet) (t : Js) (db : Db) :
    Except String (Db × Nat × List Notif) := do
  match ← txPrep dec w t with
  | none => return (db, 0, [])
  | some pr =>
    let (db1, cW, fW) := wApply w pr db
    let (db2, cV, fV) := vApply w pr db1
    return (db2, cW + cV, fW ++ fV)

/-- The whole per-page transaction body over a page's envelope list; an error
value carries the notifications already dispatched before the throw (they are
fire-and-forget and are not rolled back with the store transaction). -/
def goTxs (dec : String → Option Js) (w : Wallet) :
    List Js → Db → Except (List Notif) (Db × Nat × List Notif)
  | [], db => .ok (db, 0, [])
  | t :: ts, db =>
    match stepTx dec w t db with
    | .error _ => .error []
    | .ok (db1, c1, f1) =>
      match goTxs dec w ts db1 with
      | .error f2 => .error (f1 ++ f2)
      | .ok (db2, c2, f2) => .ok (db2, c1 + c2, f1 ++ f2)

/-- Processing one fetched page inside `prisma.$transaction`: on any throw the
store transaction rolls back (records revert, counter is not reported), while
already-dispatched notifications stand. -/
def processPage (dec : String → Option Js) (w : Wallet) (txs : List Js) (db : Db) :
    Db × Nat × List Notif :=
  match goTxs dec w txs db with
  | .ok r => r
  | .error f => (db, 0, f)

/-- A failed request as classified by the syncer/fetcher catch blocks:
an axios error carries `error.response?.status` (absent for pure network
failures); any other runtime exception is `other`. -/
inductive FetchErr where
  | axios (status : Option Nat) : FetchErr
  | other (msg : String) : FetchErr

/-- fetcher.ts mergeTxResponses: merges the split `tx_responses`/`txs`
parallel arrays by index, leaving entries that already carry a `tx` body
untouched. -/
def mergeTxResponses (data : Js) : Except String (List Js) := do
  let trV := jsOr (← data.getE "tx_responses") (.arr [])
  let txsV := jsOr (data.get "txs") (.arr [])
  match trV with
  | .arr rs =>
    (rs.enum.mapM (fun p => do
      let i := p.1
      let res := p.2
      let resTx ← res.getE "tx"
      if resTx.truthy then pure res
      else
        match res with
        | .obj fs => pure (Js.obj (setField fs "tx" (jsOr (txsV.idx i) .null)))
        | _ => pure (Js.obj [("tx", jsOr (txsV.idx i) .null)]))
      : Except String (List Js))
  | _ => .error "TypeError"
where
  setField : List (String × Js) → String → Js → List (String × Js)
    | [], k, v => [(k, v)]
    | (k', v') :: rest, k, v =>
      if k' = k then (k', v) :: rest else (k', v') :: setField rest k v

/-- The normalized return value of `fetchIndexerMode`. -/
structure IndexerResult where
  txs : List Js
  total : Int

/-- Building the result object from a successful response body (throws inside
the try block when the body shape is unusable, which the catch then sees as a
non-axios error). -/
def fetchResult (data : Js) : Except String IndexerResult := do
  let txs ← mergeTxResponses data
  pure ⟨txs, jsNumber (jsOr ((data.get "pagination").optGet "total") (.num 0))⟩

/-- The legacy combined-query request parameters (URLSearchParams insertion
order). -/
def legacyParams (queryEvent : String) (minHeight : Int) (page : Nat) :
    List (String × String) :=
  [("query", queryEvent ++ " AND tx.height>=" ++ toString minHeight),
   ("pagination.limit", "100"), ("pagination.page", toString page), ("order_by", "1")]

/-- The fallback events-dialect parameters: the filter and the height clause
are two repeated `events` parameters. -/
def eventsParams (queryEvent : String) (minHeight : Int) (page : Nat) :
    List (String × String) :=
  [("events", queryEvent), ("events", "tx.height>=" ++ toString minHeight),
   ("pagination.limit", "100"), ("pagination.page", toString page), ("order_by", "1")]

/-- The fallback trigger of `fetchIndexerMode`: an axios error whose
`error.response?.status || 0` lies in 400/500/501. -/
def fetchRetryable : FetchErr → Bool
  | .axios st => [400, 500, 501].contains (st.getD 0)
  | .other _ => false

/-- fetcher.ts fetchIndexerMode, with the HTTP layer abstracted as `backend`
(the response body or the classified failure for a given parameter list).
Returns the outcome together with the trace of issued requests. -/
def fetchIndexerMode (backend : List (String × String) → Except FetchErr Js)
    (queryEvent : String) (minHeight : Int) (page : Nat) :
    Except FetchErr IndexerResult × List (List (String × String)) :=
  let pl := legacyParams queryEvent minHeight page
  match backend pl with
  | .ok data =>
    match fetchResult data with
    | .ok r => (.ok r, [pl])
    | .error m => (.error (.other m), [pl])
  | .error e =>
    if fetchRetryable e then
      let pe := eventsParams queryEvent minHeight page
      match backend pe with
      | .ok data =>
        match fetchResult data with
        | .ok r => (.ok r, [pl, pe])
        | .error _ => (.ok ⟨[], 0⟩, [pl, pe])
      | .error _ => (.ok ⟨[], 0⟩, [pl, pe])
    else (.error e, [pl])

/-- One attempt of the per-filter page loop of `backfillWalletHistory`:
either a fetched page of `n` transactions, or a failure as classified by the
catch block. -/
inductive PageOutcome where
  | ok (txsLen : Nat) : PageOutcome
  | axiosFail (status : Option Nat) : PageOutcome
  | otherFail : PageOutcome

/-- The loop state the error classification acts on. -/
structure PageLoopSt where
  consecutiveErrors : Nat
  running : Bool

/-- One iteration of the page loop's control logic (syncer.ts lines 241-530),
returning the new state and the milliseconds slept in that iteration.  On any
error the shared `consecutiveErrors` counter is incremented first; the
gateway branch (502/503/504) then sleeps 10s and aborts once the counter has
reached 3; the rate-limit branch (429) sleeps 5s and never checks a
threshold; a 400/500/501 aborts at once; everything else aborts once the
counter has reached 5, sleeping 2s otherwise.  A successful page resets the
counter to zero (and ends the loop when the page is empty or short). -/
def pageStep (s : PageLoopSt) (o : PageOutcome) : PageLoopSt × Nat :=
  match o with
  | .ok n =>
    if n = 0 then (⟨0, false⟩, 0)
    else (⟨0, if n < 100 then false else s.running⟩, 200)
  | .axiosFail st =>
    let c := s.consecutiveErrors + 1
    match st with
    | some code =>
      if [502, 503, 504].contains code then
        (⟨c, if c ≥ 3 then false else s.running⟩, 10000)
      else if code = 429 then (⟨c, s.running⟩, 5000)
      else if [400, 500, 501].contains code then (⟨c, false⟩, 0)
      else if c ≥ 5 then (⟨c, false⟩, 0)
      else (⟨c, s.running⟩, 2000)
    | none =>
      if c ≥ 5 then (⟨c, false⟩, 0) else (⟨c, s.running⟩, 2000)
  | .otherFail =>
    let c := s.consecutiveErrors + 1
    if c ≥ 5 then (⟨c, false⟩, 0) else (⟨c, s.running⟩, 2000)

/-- Folding a sequence of attempt outcomes through the loop control, stopping
once `running` is false. -/
def runPageLoop : List PageOutcome → PageLoopSt → PageLoopSt
  | [], s => s
  | o :: os, s => if !s.running then s else runPageLoop os (pageStep s o).1

/-- The account-visible state the crawl's locking/flag protocol acts on:
whether another task holds the in-process lock for this wallet's key, whether
the wallet row still exists, its `isSyncing` flag, and its heartbeat. -/
structure AcctState where
  lockHeld : Bool
  walletExists : Bool
  isSyncing : Bool
  lastSyncHeartbeat : Option Int

/-- The locking and syncing-flag protocol of `backfillWalletHistory`
(syncer.ts lines 142-186 and the finally block of lines 547-560), with the
crawl body between flag-set and cleanup abstracted as `body` (it is never
reached on the paths any claim is about).  If the per-wallet lock is held
every `acquireWithRetry` attempt fails and the function returns before the
try block, touching nothing.  Otherwise: a missing wallet returns from inside
the try; an `updateMany` on `isSyncing: false` that affects zero rows (the
flag is already true) returns from inside the try; else the flag is set with
a fresh heartbeat and the body runs.  The finally block then unconditionally
clears `isSyncing` and releases the lock on every one of those paths. -/
def backfillOuter (body : AcctState → AcctState) (now : Int) (s : AcctState) : AcctState :=
  if s.lockHeld then s
  else
    let s1 : AcctState := { s with lockHeld := true }
    let s2 :=
      if !s1.walletExists then s1
      else if s1.isSyncing then s1
      else body { s1 with isSyncing := true, lastSyncHeartbeat := some now }
    { s2 with isSyncing := false, lockHeld := false }

/-- A wallet row as read by the stuck-sync reaper. -/
structure ReapWallet where
  id : Nat
  label : String
  isSyncing : Bool
  lastSyncHeartbeat : Option Int

/-- The staleness threshold `STUCK_THRESHOLD_MS` (10 minutes). -/
def STUCK_THRESHOLD_MS : Int := 10 * 60 * 1000

/-- Heartbeat-age staleness test of `syncAllWallets`: age is now minus the
heartbeat, a missing heartbeat counting as infinite age; stale means the age
strictly exceeds the threshold. -/
def heartbeatStale (now : Int) (hb : Option Int) : Bool :=
  match hb with
  | none => true
  | some t => now - t > STUCK_THRESHOLD_MS

/-- The stuck-detection sweep at the start of a periodic pass (syncer.ts
lines 578-618): for each wallet with the syncing flag set and a stale
heartbeat, force the flag to false and release that wallet's lock key
(returned as the list of released wallet ids). -/
def reapPass (now : Int) (ws : List ReapWallet) : List ReapWallet × List Nat :=
  ws.foldl
    (fun acc w =>
      if w.isSyncing && heartbeatStale now w.lastSyncHeartbeat then
        (acc.1 ++ [{ w with isSyncing := false }], acc.2 ++ [w.id])
      else (acc.1 ++ [w], acc.2))
    (([], []) : List ReapWallet × List Nat)

/-- A trivial instance of the runtime decode model (no claim below depends on
the packet decode's behaviour, so witnesses may fix it arbitrarily). -/
def dec0 : String → Option Js := fun _ => none

/-- A key/value event attribute as delivered by the indexer. -/
def attrKV (k v : String) : Js := .obj [("key", .str k), ("value", .str v)]

/-- An emitted event with a type tag and an attribute list. -/
def mkEvent (ty : String) (attrs : List Js) : Js :=
  .obj [("type", .str ty), ("attributes", .arr attrs)]

/-- An envelope whose single message is an authorized execution wrapping a
delegate message with an empty coin array: the unguarded
`meaningfulMsg.amount[0].amount` access in the Exec block of
`extractByPattern` dereferences `undefined` here. -/
def execCexTx : Js := .obj [
  ("tx", .obj [("body", .obj [("messages", .arr [
    .obj [("@type", .str "/cosmos.authz.v1beta1.MsgExec"),
          ("msgs", .arr [.obj [("@type", .str "/cosmos.staking.v1beta1.MsgDelegate"),
                               ("amount", .arr [])]])]])])])]

/-- Logs whose single withdraw event carries two coins of different
denominations: 100ua and 50ub. -/
def c4Logs : Js := .arr [.obj [("events", .arr
  [mkEvent "withdraw_rewards" [attrKV "amount" "100ua,50ub"]])]]

/-- Canonical withdraw-only logs carrying the given amount attribute values,
one `withdraw_rewards` event per value. -/
def mkWdLogs (vals : List String) : Js :=
  .arr [.obj [("events", .arr (vals.map (fun v => mkEvent "withdraw_rewards" [attrKV "amount" v])))]]

/-- Specification-side reading (for the amended C4 statement): the quantities
of every comma-separated coin the amount regex matches in one attribute
value, across all denominations. -/
def coinQuantsOf (v : String) : List Nat :=
  (splitSep v ',').filterMap (fun c => (coinMatch c).map (fun m => decNat m.1))

/-- Specification-side reading: the denominations matched in one attribute
value, in order. -/
def coinDenomsOf (v : String) : List String :=
  (splitSep v ',').filterMap (fun c => (coinMatch c).map (fun m => m.2))

/-- Specification-side reading: the grand total over every coin of every
denomination across all the withdraw amount attributes. -/
def allCoinTotal (vals : List String) : Nat :=
  (vals.map (fun v => (coinQuantsOf v).sum)).sum

/-- Specification-side reading: the first denomination matched anywhere. -/
def firstCoinDenom (vals : List String) : String :=
  ((vals.map coinDenomsOf).flatten).headD ""

/-- A WithdrawDelegatorReward message. -/
def wdRewardMsg (d v : String) : Js := .obj [
  ("@type", .str "/cosmos.distribution.v1beta1.MsgWithdrawDelegatorReward"),
  ("delegator_address", .str d), ("validator_address", .str v)]

/-- A WithdrawValidatorCommission message. -/
def wdCommMsg (v : String) : Js := .obj [
  ("@type", .str "/cosmos.distribution.v1beta1.MsgWithdrawValidatorCommission"),
  ("validator_address", .str v)]

/-- The emitted events of the C5 scenario: 100denom of rewards and 50denom of
commission. -/
def c5Events : Js := .arr [
  mkEvent "withdraw_rewards" [attrKV "amount" "100denom"],
  mkEvent "withdraw_commission" [attrKV "amount" "50denom"]]

/-- A two-message batch-withdraw envelope with the C5 event log. -/
def c5Tx (msgs : List Js) : Js := .obj [
  ("tx", .obj [("body", .obj [("messages", .arr msgs)])]),
  ("events", c5Events)]

/-- An address containing the fee-collector module marker. -/
def feeAddr : String := "cosmos17xpfvakm2amg962yls6f84z3kell8c5lserqta"

/-- Events whose first transfer recipient is the fee collector and whose
second is a user address. -/
def c6Events : Js := .arr [
  mkEvent "transfer" [attrKV "recipient" feeAddr],
  mkEvent "transfer" [attrKV "recipient" "cosmos1user"]]

/-- Logs whose only transfer recipient is the fee-collector address. -/
def c6Logs : Js := .arr [.obj [("events", .arr [mkEvent "transfer" [attrKV "recipient" feeAddr]])]]

/-- A single-message governance vote envelope with the given proposal id and
option value (no logs or events attached). -/
def voteTx (pid : Int) (opt : Js) : Js := .obj [
  ("tx", .obj [("body", .obj [("messages", .arr [
    .obj [("@type", .str "/cosmos.gov.v1beta1.MsgVote"),
          ("proposal_id", .num pid), ("voter", .str "cosmos1voter"),
          ("option", opt)]])])])]

/-- The C7 counterexample attempt sequence: two rate-limit failures followed
by one gateway failure. -/
def c7Outcomes : List PageOutcome :=
  [.axiosFail (some 429), .axiosFail (some 429), .axiosFail (some 502)]

/-- The C8 scenario: the per-wallet lock key is free, the wallet exists, and
another crawl owns `isSyncing = true` with a live heartbeat. -/
def c8State : AcctState := ⟨false, true, true, some 1000⟩

/-- A wallet used by concrete crawl witnesses. -/
def witWallet : Wallet :=
  ⟨1, "addr1", none, none, "w1", false, false, none, ⟨"http://rest", none⟩⟩

/-- A bank-send envelope from the witness wallet's address. -/
def witTx : Js := .obj [
  ("txhash", .str "H1"), ("height", .str "5"), ("timestamp", .str "2026-01-01"),
  ("tx", .obj [("body", .obj [("messages", .arr [
    .obj [("@type", .str "/cosmos.bank.v1beta1.MsgSend"),
          ("from_address", .str "addr1"), ("to_address", .str "addr2"),
          ("amount", .arr [.obj [("amount", .str "7"), ("denom", .str "ua")]])]])])])]

/-- A mock backend for the C2 witness: rejects the legacy dialect with 400
and fails the events dialect with a gateway error. -/
def c2Backend : List (String × String) → Except FetchErr Js := fun ps =>
  if ps = legacyParams "f" 7 2 then .error (.axios (some 400))
  else .error (.axios (some 503))

/-- A mock backend failing the legacy dialect with a non-retryable 404. -/
def c2Backend404 : List (String × String) → Except FetchErr Js := fun _ =>
  .error (.axios (some 404))

/-- A transaction's processing is a no-op against a store state: the envelope
is skipped for a missing hash/height, or each category it is relevant to
already holds its (hash, walletId) key (and preprocessing does not throw). -/
def noopAt (dec : String → Option Js) (w : Wallet) (t : Js) (db : Db) : Prop :=
  match txPrep dec w t with
  | .error _ => False
  | .ok none => True
  | .ok (some pr) =>
    (pr.myW = [] ∨ hasWKey db pr.hashS w.id = true) ∧
    (optStrTruthy w.valAddress = false ∨ pr.myV = [] ∨ hasVKey db pr.hashS w.id = true)

/-- C3: the spec asserts the interpreter is total (never raises; every decode
step is best-effort), but `TxParser.parse` throws a TypeError on an envelope
whose single authorized-execution message wraps an inner message with an
empty coin array: the Exec block dereferences `amount[0]` unguarded, unlike
the guarded array pattern of the top-level amount resolver.  This theorem
evaluates the embedded code at that failing input. -/
theorem c3_parse_throws_on_empty_exec_amount :
    ∀ dec : String → Option Js, TxParser.parse dec execCexTx = .error "TypeError" :=
  fun _ => rfl

/-- C8: on the concurrency-denied abort path (lock free, wallet present,
another crawl holding `isSyncing = true`), `backfillWalletHistory` is claimed
to leave the account state unchanged; in the code the finally block clears
the flag unconditionally, so the function returns the state with the foreign
`isSyncing` flag forced to false (heartbeat and the rest untouched). -/
theorem c8_abort_path_clears_foreign_flag :
    ∀ (body : AcctState → AcctState) (now : Int) (s : AcctState),
    s.lockHeld = false → s.walletExists = true → s.isSyncing = true →
    backfillOuter body now s = { s with isSyncing := false } := by
  intro body now s h1 h2 h3
  cases s
  simp_all [backfillOuter]

/-- Witness for C8 at the concrete scenario state. -/
theorem c8_abort_path_clears_foreign_flag_witness :
    c8State.isSyncing = true ∧
    backfillOuter id 0 c8State = { c8State with isSyncing := false } :=
  ⟨rfl, c8_abort_path_clears_foreign_flag id 0 c8State rfl rfl rfl⟩

/-- Accumulator-generalised characterisation of the reaper fold. -/
theorem reapPass_go (now : Int) (ws : List ReapWallet)
    (accL : List ReapWallet) (accR : List Nat) :
    ws.foldl
      (fun acc w =>
        if w.isSyncing && heartbeatStale now w.lastSyncHeartbeat then
          (acc.1 ++ [{ w with isSyncing := false }], acc.2 ++ [w.id])
        else (acc.1 ++ [w], acc.2))
      (accL, accR) =
    (accL ++ ws.map (fun w =>
        if w.isSyncing && heartbeatStale now w.lastSyncHeartbeat then
          { w with isSyncing := false } else w),
     accR ++ (ws.filter (fun w => w.isSyncing && heartbeatStale now w.lastSyncHeartbeat)).map
        ReapWallet.id) := by
  induction ws generalizing accL accR with
  | nil => simp
  | cons w rest ih =>
    by_cases h : (w.isSyncing && heartbeatStale now w.lastSyncHeartbeat) = true
    · simp only [List.foldl_cons, h, if_pos, List.map_cons, List.filter_cons, ih]
      simp [h]
    · simp only [List.foldl_cons, List.map_cons, List.filter_cons, ih,
        Bool.not_eq_true] at h ⊢
      simp [h]

/-- C9: the reaper resets exactly the syncing accounts whose heartbeat age
(now minus heartbeat, a missing heartbeat counting as infinite) strictly
exceeds the 10-minute threshold, releasing exactly their lock keys and
leaving every other account untouched; an 11-minute-old heartbeat is stale
while a 2-minute-old one is not. -/
theorem c9_reaper_resets_exactly_stale :
    ∀ (now : Int) (ws : List ReapWallet),
    reapPass now ws =
      (ws.map (fun w =>
          if w.isSyncing && heartbeatStale now w.lastSyncHeartbeat then
            { w with isSyncing := false } else w),
       (ws.filter (fun w => w.isSyncing && heartbeatStale now w.lastSyncHeartbeat)).map
          ReapWallet.id) ∧
    heartbeatStale now none = true ∧
    heartbeatStale now (some (now - 660000)) = true ∧
    heartbeatStale now (some (now - 120000)) = false := by
  intro now ws
  refine ⟨?_, rfl, ?_, ?_⟩
  · simpa [reapPass] using reapPass_go now ws [] []
  · simp only [heartbeatStale, STUCK_THRESHOLD_MS, decide_eq_true_eq]
    omega
  · simp only [heartbeatStale, STUCK_THRESHOLD_MS, decide_eq_false_iff_not]
    omega

/-- C7 counterexample: after two 429 responses and a single 502, the filter
is aborted (`running = false` with the shared counter at 3), although only
one gateway error and no generic error occurred — so 429 responses do count
toward the 3-consecutive abort check, contrary to the claim. -/
theorem c7_rate_limit_counts_toward_abort_cex :
    runPageLoop c7Outcomes ⟨0, true⟩ = ⟨3, false⟩ ∧
    (c7Outcomes.countP (fun o => match o with
      | .axiosFail (some st) => [502, 503, 504].contains st
      | _ => false)) = 1 ∧
    (c7Outcomes.countP (fun o => match o with
      | .axiosFail (some st) => st = 429
      | _ => false)) = 2 := by
  refine ⟨rfl, rfl, rfl⟩

/-- C7 amended: one shared `consecutiveErrors` counter is incremented by
every error, 429 included, and reset by every successful page; the gateway
branch (502/503/504) sleeps 10s and aborts exactly when that shared counter
has reached 3; the 429 branch sleeps 5s and itself never aborts; a
400/500/501 aborts at once with no sleep; and every other error aborts
exactly when the shared counter has reached 5, sleeping 2s otherwise. -/
theorem c7_error_classification :
    ∀ (s : PageLoopSt) (n : Nat) (code : Nat),
    (pageStep s (.ok n)).1.consecutiveErrors = 0 ∧
    (∀ st, (pageStep s (.axiosFail st)).1.consecutiveErrors = s.consecutiveErrors + 1) ∧
    (pageStep s .otherFail).1.consecutiveErrors = s.consecutiveErrors + 1 ∧
    (pageStep ⟨s.consecutiveErrors, true⟩ (.axiosFail (some 429)) =
      (⟨s.consecutiveErrors + 1, true⟩, 5000)) ∧
    ([502, 503, 504].contains code = true →
      pageStep ⟨s.consecutiveErrors, true⟩ (.axiosFail (some code)) =
        (⟨s.consecutiveErrors + 1, decide (s.consecutiveErrors + 1 < 3)⟩, 10000)) ∧
    ([400, 500, 501].contains code = true →
      pageStep s (.axiosFail (some code)) = (⟨s.consecutiveErrors + 1, false⟩, 0)) ∧
    ([502, 503, 504].contains code = false → code ≠ 429 →
      [400, 500, 501].contains code = false →
      pageStep ⟨s.consecutiveErrors, true⟩ (.axiosFail (some code)) =
        (⟨s.consecutiveErrors + 1, decide (s.consecutiveErrors + 1 < 5)⟩,
          if s.consecutiveErrors + 1 ≥ 5 then 0 else 2000)) := by
  intro s n code
  refine ⟨?_, ?_, ?_, ?_, ?_, ?_, ?_⟩
  · cases hn : n with
    | zero => simp [pageStep]
    | succ m => simp [pageStep]
  · intro st
    cases st with
    | none => by_cases h : s.consecutiveErrors + 1 ≥ 5 <;> simp [pageStep, h]
    | some c =>
      simp only [pageStep]
      repeat' split
      all_goals rfl
  · by_cases h : s.consecutiveErrors + 1 ≥ 5 <;> simp [pageStep, h]
  · simp [pageStep]
  · intro h
    have h' : code = 502 ∨ code = 503 ∨ code = 504 := by
      simpa using h
    rcases h' with h' | h' | h' <;> subst h' <;>
      by_cases hc : 2 ≤ s.consecutiveErrors
    all_goals simp [pageStep, hc] <;> omega
  · intro h
    have h' : code = 400 ∨ code = 500 ∨ code = 501 := by
      simpa using h
    rcases h' with h' | h' | h' <;> subst h' <;> simp [pageStep]
  · intro h1 h2 h3
    have h1' : ¬(code = 502 ∨ code = 503 ∨ code = 504) := by
      simpa using h1
    have h3' : ¬(code = 400 ∨ code = 500 ∨ code = 501) := by
      simpa using h3
    by_cases h4 : 4 ≤ s.consecutiveErrors
    · simp [pageStep, h1', h2, h3', h4]
    · simp [pageStep, h1', h2, h3', h4]
      omega

/-- Witness for C7 at a concrete gateway error on a fresh counter. -/
theorem c7_error_classification_witness :
    pageStep ⟨0, true⟩ (.axiosFail (some 503)) = (⟨1, true⟩, 10000) := by
  have h := (c7_error_classification ⟨0, true⟩ 0 503).2.2.2.2.1 (by decide)
  simpa using h

/-- C2: when the legacy combined-query request fails with a status in
400/500/501 (and only then), exactly one retry is issued, in the events
dialect with the filter and the height clause as two repeated `events`
parameters; if that retry fails in any way — a failed request or an unusable
response body — the function returns the empty result without raising; any
other first failure propagates with no fallback attempt. -/
theorem c2_one_shot_dialect_fallback :
    ∀ (backend : List (String × String) → Except FetchErr Js)
      (q : String) (mh : Int) (pg : Nat) (e : FetchErr),
    backend (legacyParams q mh pg) = .error e →
    (fetchRetryable (.axios (some 400)) = true ∧
     fetchRetryable (.axios (some 500)) = true ∧
     fetchRetryable (.axios (some 501)) = true ∧
     fetchRetryable (.axios (some 502)) = false ∧
     fetchRetryable (.axios (some 404)) = false ∧
     fetchRetryable (.axios none) = false ∧
     fetchRetryable (.other "boom") = false) ∧
    (fetchRetryable e = true →
      (fetchIndexerMode backend q mh pg).2 = [legacyParams q mh pg, eventsParams q mh pg] ∧
      (eventsParams q mh pg).take 2 =
        [("events", q), ("events", "tx.height>=" ++ toString mh)] ∧
      (∀ e2, backend (eventsParams q mh pg) = .error e2 →
        (fetchIndexerMode backend q mh pg).1 = .ok ⟨[], 0⟩) ∧
      (∀ d m, backend (eventsParams q mh pg) = .ok d → fetchResult d = .error m →
        (fetchIndexerMode backend q mh pg).1 = .ok ⟨[], 0⟩)) ∧
    (fetchRetryable e = false →
      fetchIndexerMode backend q mh pg = (.error e, [legacyParams q mh pg])) := by
  intro backend q mh pg e hleg
  refine ⟨⟨rfl, rfl, rfl, rfl, rfl, rfl, rfl⟩, ?_, ?_⟩
  · intro hr
    refine ⟨?_, rfl, ?_, ?_⟩
    · cases hB : backend (eventsParams q mh pg) with
      | error e2 => simp [fetchIndexerMode, hleg, hr, hB]
      | ok d => cases hF : fetchResult d <;> simp [fetchIndexerMode, hleg, hr, hB, hF]
    · intro e2 hev
      simp [fetchIndexerMode, hleg, hr, hev]
    · intro d m hd hm
      simp [fetchIndexerMode, hleg, hr, hd, hm]
  · intro hr
    simp [fetchIndexerMode, hleg, hr]

/-- Witness for C2: a backend rejecting the legacy dialect with 400 and
failing the fallback with 503 yields the empty result. -/
theorem c2_one_shot_dialect_fallback_witness :
    (fetchIndexerMode c2Backend "f" 7 2).1 = .ok ⟨[], 0⟩ := by
  have h := c2_one_shot_dialect_fallback c2Backend "f" 7 2 (.axios (some 400)) rfl
  exact (h.2.1 rfl).2.2.1 (.axios (some 503)) rfl

/-- C10: for a single vote message carrying a (truthy) proposal id, the
synthesized "Prop #id: OPTION" amount appears only for a truthy option
value: option 0 — whose normalized decoding would be EMPTY, the table's
index-0 entry — and the empty-string option leave the amount null (the
envelope has no logs to derive from), while option 1 yields
"Prop #id: YES". -/
theorem c10_vote_option_zero_unresolved :
    ∀ (dec : String → Option Js) (pid : Int), pid ≠ 0 →
    (TxParser.parse dec (voteTx pid (.num 0))).map ParsedTx.amount = .ok .null ∧
    (TxParser.parse dec (voteTx pid (.str ""))).map ParsedTx.amount = .ok .null ∧
    TxParser.parseVoteOption (.num 0) = "EMPTY" ∧
    (TxParser.parse dec (voteTx pid (.num 1))).map ParsedTx.amount =
      .ok (.str ("Prop #" ++ toString pid ++ ": " ++ "YES")) := by
  intro dec pid h
  have hne : ("Prop #" ++ toString pid ++ ": " ++ "YES") ≠ "" := by
    intro hx
    have hd := congrArg String.data hx
    simp [String.data_append] at hd
  refine ⟨?_, ?_, rfl, ?_⟩ <;>
    simp [TxParser.parse, voteTx, TxParser.extractByPattern, Js.get, getInFields, Js.getE,
      Js.optGet, jsOr, Js.truthy, jsLenGt1, jsLenOpt, Js.idx, splitLast, lastSegAux,
      TxParser.initResult, Js.asStrE, strContains, containsL, isPrefixL, Js.isArr, h, hne,
      TxParser.extractAmountFromLogs, TxParser.extractRecipientFromEvents,
      TxParser.extractRecipientFromLogs, TxParser.enhanceWithdrawData, Js.eqStr,
      TxParser.parseVoteOption, TxParser.voteOpts, Js.toStr, Except.map,
      bind, Except.bind, pure, Except.pure, Except.instMonad]

/-- Witness for C10 at proposal id 42. -/
theorem c10_vote_option_zero_unresolved_witness :
    (TxParser.parse dec0 (voteTx 42 (.num 0))).map ParsedTx.amount = .ok .null ∧
    (TxParser.parse dec0 (voteTx 42 (.num 1))).map ParsedTx.amount =
      .ok (.str ("Prop #" ++ toString (42 : Int) ++ ": " ++ "YES")) :=
  ⟨(c10_vote_option_zero_unresolved dec0 42 (by decide)).1,
   (c10_vote_option_zero_unresolved dec0 42 (by decide)).2.2.2⟩

/-- A string coercion only succeeds on string values. -/
theorem asStrE_ok_iff {v : Js} {s : String} :
    v.asStrE = .ok s ↔ v = .str s := by
  cases v <;> simp [Js.asStrE]

/-- A candidate hit of the events-based resolver is a string free of the
fee-collector marker. -/
theorem recipHit_no_fee {ev ty : Js} {evType key : String} {v : Js}
    (h : TxParser.recipHit ev ty evType key = .ok (some v)) :
    ∃ s, v = .str s ∧ strContains s TxParser.feeMarker = false := by
  unfold TxParser.recipHit at h
  by_cases ht : ty.eqStr evType
  · rw [if_pos ht] at h
    rcases ha : TxParser.findAttr ev key with e | attr
    · rw [ha] at h
      simp at h
    · rw [ha] at h
      dsimp only at h
      by_cases htr : (attr.optGet "value").truthy
      · rw [if_pos htr] at h
        rcases hs : (attr.optGet "value").asStrE with e | s
        · rw [hs] at h
          simp at h
        · rw [hs] at h
          dsimp only at h
          by_cases hc : strContains s TxParser.feeMarker
          · simp [hc] at h
          · simp only [Bool.not_eq_true] at hc
            rw [if_pos (by simp [hc])] at h
            have hv : attr.optGet "value" = v := by simpa using h
            exact ⟨s, by rw [← hv]; exact asStrE_ok_iff.mp hs, hc⟩
      · rw [if_neg htr] at h
        simp at h
  · rw [if_neg ht] at h
    simp at h

/-- C6 amended: the events-based resolver never returns an address containing
the fee-collector marker — a fee-collector hit is skipped and scanning
continues with later candidate events, as the concrete two-transfer instance
shows — but the exclusion lives only on that path: the logs-based resolver
returns the first transfer recipient unconditionally. -/
theorem c6_events_resolver_excludes_fee_collector :
    (∀ (events : Js) (r : String),
      TxParser.extractRecipientFromEvents events = .ok (.str r) →
      strContains r TxParser.feeMarker = false) ∧
    TxParser.extractRecipientFromEvents c6Events = .ok (.str "cosmos1user") := by
  constructor
  · intro events r h
    unfold TxParser.extractRecipientFromEvents at h
    by_cases hg : (events.truthy && events.isArr) = true
    · rw [if_neg (by simp [hg])] at h
      generalize events.elems = evs at h
      induction evs with
      | nil => simp [TxParser.recipScan] at h
      | cons ev rest ih =>
        rw [TxParser.recipScan] at h
        rcases hty : ev.getE "type" with e | ty
        · rw [hty] at h
          simp at h
        · rw [hty] at h
          dsimp only at h
          rcases h1 : TxParser.recipHit ev ty "transfer" "recipient" with e | o1
          · rw [h1] at h
            simp at h
          · rw [h1] at h
            cases o1 with
            | some v =>
              dsimp only at h
              obtain ⟨s, hvs, hs⟩ := recipHit_no_fee h1
              have : v = Js.str r := by simpa using h
              rw [this] at hvs
              simp only [Js.str.injEq] at hvs
              rwa [hvs]
            | none =>
              dsimp only at h
              rcases h2 : TxParser.recipHit ev ty "coin_received" "receiver" with e | o2
              · rw [h2] at h
                simp at h
              · rw [h2] at h
                cases o2 with
                | some v =>
                  dsimp only at h
                  obtain ⟨s, hvs, hs⟩ := recipHit_no_fee h2
                  have : v = Js.str r := by simpa using h
                  rw [this] at hvs
                  simp only [Js.str.injEq] at hvs
                  rwa [hvs]
                | none =>
                  dsimp only at h
                  exact ih h
    · rw [if_pos (by simp only [Bool.not_eq_true] at hg ⊢; simp [hg])] at h
      simp at h
  · rfl

/-- Witness for C6 at the concrete two-transfer event list. -/
theorem c6_events_resolver_excludes_fee_collector_witness :
    strContains "cosmos1user" TxParser.feeMarker = false :=
  c6_events_resolver_excludes_fee_collector.1 c6Events "cosmos1user"
    c6_events_resolver_excludes_fee_collector.2

/-- C6 counterexample: the logs-based resolver applies no fee-collector
exclusion — on logs whose only transfer recipient is the fee-collector
address, it returns that address. -/
theorem c6_logs_resolver_returns_fee_collector_cex :
    TxParser.extractRecipientFromLogs c6Logs = .ok (.str feeAddr) ∧
    strContains feeAddr TxParser.feeMarker = true :=
  ⟨rfl, by decide⟩

/-- C4 counterexample: on a withdraw event amount of "100ua,50ub" the derived
aggregate is "150ua" — the 50ub coin of the other denomination is folded into
the total labeled ua — whereas the claim demands the sum of one denomination
only (which would be "100ua", or "50ub" for the other). -/
theorem c4_cross_denomination_folding_cex :
    TxParser.extractAmountFromLogs c4Logs = .ok (.str "150ua") ∧
    "150ua" ≠ "100ua" ∧ "150ua" ≠ "50ub" :=
  ⟨rfl, by decide, by decide⟩

/-- The denomination capture group of the coin regex is never empty. -/
theorem coinMatch_denom_ne : ∀ (cs : List Char) (m : String × String),
    coinMatchL cs = some m → m.2 ≠ "" := by
  intro cs
  induction cs with
  | nil => intro m h; simp [coinMatchL] at h
  | cons c cs ih =>
    intro m h
    rw [coinMatchL] at h
    by_cases hd : c.isDigit
    · rw [if_pos hd] at h
      rcases hr : (c :: cs).dropWhile Char.isDigit with _ | ⟨r, rest⟩
      · rw [hr] at h
        dsimp only at h
        exact ih m h
      · rw [hr] at h
        dsimp only at h
        by_cases ha : r.isAlpha
        · rw [if_pos ha] at h
          simp only [Option.some.injEq] at h
          subst h
          simp only [List.takeWhile, ha]
          intro heq
          have := congrArg String.data heq
          simp at this
        · rw [if_neg ha] at h
          exact ih m h
    · rw [if_neg hd] at h
      exact ih m h

/-- Folding one attribute value's comma-separated coins: every matched
quantity (of every denomination) lands in the one running total, the
denomination records only the first match, and the found flag records any
match. -/
theorem foldl_addCoin (parts : List String) :
    ∀ acc : TxParser.AmtAcc,
    parts.foldl TxParser.addCoin acc =
      ⟨acc.total + (parts.filterMap (fun c => (coinMatch c).map (fun m => decNat m.1))).sum,
       (if acc.denom = "" then
          (parts.filterMap (fun c => (coinMatch c).map (fun m => m.2))).headD ""
        else acc.denom),
       acc.found || !(parts.filterMap (fun c => (coinMatch c).map (fun m => decNat m.1))).isEmpty⟩ := by
  induction parts with
  | nil =>
    intro acc
    rcases acc with ⟨t, d, f⟩
    by_cases hd : d = "" <;> simp [hd]
  | cons c cs ih =>
    intro acc
    rcases hm : coinMatch c with _ | ⟨d, dn⟩
    · simp only [List.foldl_cons, List.filterMap_cons, hm, Option.map_none]
      rw [show TxParser.addCoin acc c = acc by simp [TxParser.addCoin, hm]]
      exact ih acc
    · have hdn : dn ≠ "" := coinMatch_denom_ne c.toList (d, dn) hm
      simp only [List.foldl_cons, List.filterMap_cons, hm, Option.map_some]
      rw [show TxParser.addCoin acc c =
          ⟨acc.total + decNat d, if acc.denom = "" then dn else acc.denom, true⟩ by
        simp [TxParser.addCoin, hm]]
      rw [ih]
      by_cases hden : acc.denom = ""
      · simp [hden, hdn, Nat.add_assoc]
      · simp [hden, Nat.add_assoc]

/-- Every denomination recorded for an attribute value is nonempty. -/
theorem coinDenomsOf_ne_empty (v : String) : ∀ dn ∈ coinDenomsOf v, dn ≠ "" := by
  intro dn hdn
  simp only [coinDenomsOf, List.mem_filterMap] at hdn
  obtain ⟨c, _, hmap⟩ := hdn
  rcases hm : coinMatch c with _ | m
  · rw [hm] at hmap
    simp at hmap
  · rw [hm] at hmap
    simp only [Option.map_some', Option.some.injEq] at hmap
    subst hmap
    exact coinMatch_denom_ne c.toList m hm

/-- Scanning a withdraw-only event list: the accumulator receives the grand
total over every coin of every denomination, the first denomination matched,
and whether any coin matched; no early return fires. -/
theorem amtScanEvents_wd (vals : List String) :
    ∀ acc : TxParser.AmtAcc,
    TxParser.amtScanEvents
        (vals.map (fun v => mkEvent "withdraw_rewards" [attrKV "amount" v])) acc =
      .ok (.inr ⟨acc.total + allCoinTotal vals,
        (if acc.denom = "" then firstCoinDenom vals else acc.denom),
        acc.found || vals.any (fun v => !(coinQuantsOf v).isEmpty)⟩) := by
  induction vals with
  | nil =>
    intro acc
    rcases acc with ⟨t, d, f⟩
    by_cases hd : d = "" <;>
      simp [TxParser.amtScanEvents, allCoinTotal, firstCoinDenom, hd]
  | cons v vs ih =>
    intro acc
    rw [List.map_cons]
    by_cases hv : v = ""
    · have hstep : TxParser.amtScanEvents
          (mkEvent "withdraw_rewards" [attrKV "amount" v] ::
            vs.map (fun u => mkEvent "withdraw_rewards" [attrKV "amount" u])) acc =
          TxParser.amtScanEvents (vs.map (fun u => mkEvent "withdraw_rewards" [attrKV "amount" u])) acc := by
        rw [TxParser.amtScanEvents]
        simp [mkEvent, attrKV, TxParser.findAttr, jsOptFindE, jsFindE, jsFindE.goFind,
          Js.getE, Js.get, getInFields, Js.eqStr, Js.truthy, Js.optGet, Js.asStrE, hv,
          bind, Except.bind, pure, Except.pure, Except.instMonad]
      rw [hstep, ih]
      have h1 : coinQuantsOf v = [] := by rw [hv]; rfl
      have h2 : coinDenomsOf v = [] := by rw [hv]; rfl
      rcases acc with ⟨t, d, f⟩
      by_cases hd : d = "" <;>
        simp [allCoinTotal, firstCoinDenom, h1, h2, hd]
    · have hstep : TxParser.amtScanEvents
          (mkEvent "withdraw_rewards" [attrKV "amount" v] ::
            vs.map (fun u => mkEvent "withdraw_rewards" [attrKV "amount" u])) acc =
          TxParser.amtScanEvents (vs.map (fun u => mkEvent "withdraw_rewards" [attrKV "amount" u]))
            ((splitSep v ',').foldl TxParser.addCoin acc) := by
        rw [TxParser.amtScanEvents]
        simp [mkEvent, attrKV, TxParser.findAttr, jsOptFindE, jsFindE, jsFindE.goFind,
          Js.getE, Js.get, getInFields, Js.eqStr, Js.truthy, Js.optGet, Js.asStrE, hv,
          bind, Except.bind, pure, Except.pure, Except.instMonad]
      rw [hstep, foldl_addCoin, ih]
      rcases acc with ⟨t, d, f⟩
      simp only [allCoinTotal, firstCoinDenom, List.map_cons, List.sum_cons,
        List.flatten_cons, List.any_cons, coinQuantsOf, coinDenomsOf]
      by_cases hd : d = ""
      · rcases hds : coinDenomsOf v with _ | ⟨dn, dns⟩
        · simp only [coinDenomsOf] at hds
          simp [hd, hds, Nat.add_assoc, Bool.or_assoc, coinQuantsOf]
        · have hdn : dn ≠ "" :=
            coinDenomsOf_ne_empty v dn (by rw [hds]; exact List.mem_cons_self dn dns)
          simp only [coinDenomsOf] at hds
          simp [hd, hds, hdn, Nat.add_assoc, Bool.or_assoc, coinQuantsOf]
      · simp [hd, Nat.add_assoc, Bool.or_assoc, coinQuantsOf]

/-- A positive grand total requires at least one matched coin. -/
theorem allCoinTotal_pos_found (vals : List String) (h : 0 < allCoinTotal vals) :
    (vals.any (fun v => !(coinQuantsOf v).isEmpty)) = true := by
  by_contra hn
  have hz : allCoinTotal vals = 0 := by
    simp only [allCoinTotal]
    apply List.sum_eq_zero
    intro x hx
    simp only [List.mem_map] at hx
    obtain ⟨v, hv, rfl⟩ := hx
    have hne : (!(coinQuantsOf v).isEmpty) = false := by
      by_contra hb
      exact hn (List.any_eq_true.mpr ⟨v, hv, by simpa using hb⟩)
    have : coinQuantsOf v = [] := by
      simpa [List.isEmpty_iff] using hne
    simp [this]
  omega

/-- C4 amended: on withdraw-only logs the derived aggregate folds the
quantity of every comma-separated coin — across all denominations — into one
arbitrary-precision total, formatted with the first denomination matched (and
is null exactly when that total is zero). -/
theorem c4_amended_all_coins_folded :
    ∀ vals : List String,
    TxParser.extractAmountFromLogs (mkWdLogs vals) =
      .ok (if 0 < allCoinTotal vals then
        .str (toString (allCoinTotal vals) ++ firstCoinDenom vals) else .null) := by
  intro vals
  have hscan := amtScanEvents_wd vals ⟨0, "", false⟩
  by_cases hpos : 0 < allCoinTotal vals
  · have hfound := allCoinTotal_pos_found vals hpos
    simp [TxParser.extractAmountFromLogs, mkWdLogs, TxParser.amtScanLogs, Js.getE, Js.get,
      getInFields, jsOr, Js.truthy, Js.isArr, Js.elems, Js.iterE, hscan, hfound, hpos,
      bind, Except.bind, pure, Except.pure, Except.instMonad]
  · have hz : allCoinTotal vals = 0 := by omega
    simp [TxParser.extractAmountFromLogs, mkWdLogs, TxParser.amtScanLogs, Js.getE, Js.get,
      getInFields, jsOr, Js.truthy, Js.isArr, Js.elems, Js.iterE, hscan, hz,
      bind, Except.bind, pure, Except.pure, Except.instMonad]

/-- C5: any transaction carrying exactly one WithdrawDelegatorReward and one
WithdrawValidatorCommission message (in either order, for any nonempty
delegator/validator addresses) whose event log shows 100denom of rewards and
50denom of commission is interpreted as one record of type
BatchWithdraw(Reward+Commission) with amount "150denom (R:100+C:50)". -/
theorem c5_batch_withdraw_aggregation :
    ∀ (dec : String → Option Js) (d v : String) (msgs : List Js),
    d ≠ "" → v ≠ "" →
    (msgs = [wdRewardMsg d v, wdCommMsg v] ∨ msgs = [wdCommMsg v, wdRewardMsg d v]) →
    (TxParser.parse dec (c5Tx msgs)).map (fun r => (r.type, r.amount)) =
      .ok ("BatchWithdraw(Reward+Commission)", .str "150denom (R:100+C:50)") := by
  intro dec d v msgs hd hv hm
  rcases hm with hm | hm <;> subst hm <;>
    simp [TxParser.parse, TxParser.parseBatchTx, TxParser.enhanceWithdrawData,
      TxParser.enhanceScan, TxParser.extractRecipientFromEvents, TxParser.recipScan,
      TxParser.recipHit, TxParser.findAttr, TxParser.initResult, TxParser.amtScanLogs,
      TxParser.amtScanEvents, TxParser.extractAmountFromLogs,
      c5Tx, c5Events, wdRewardMsg, wdCommMsg, mkEvent, attrKV,
      jsLenGt1, jsLenOpt, jsSetDedup, jsFindE, jsFindE.goFind, jsOptFindE,
      Js.getE, Js.get, getInFields, Js.optGet, jsOr, Js.truthy, Js.isArr, Js.elems,
      Js.iterE, Js.idx, Js.eqStr, Js.asStrE, Js.toStr,
      splitLast, lastSegAux, strContains, containsL, isPrefixL,
      coinMatch, coinMatchL, decNat, splitSep, splitSepAux,
      List.takeWhile, List.dropWhile, List.mapM_cons, List.mapM_nil, List.mapM, List.mapM.loop,
      TxParser.extractByPattern, hd, hv, Except.map,
      bind, Except.bind, pure, Except.pure, Except.instMonad] <;>
    rfl

/-- Witness for C5 at concrete addresses, reward first. -/
theorem c5_batch_withdraw_aggregation_witness :
    (TxParser.parse dec0 (c5Tx [wdRewardMsg "cosmos1d" "cosmosvaloper1v", wdCommMsg "cosmosvaloper1v"])).map
        (fun r => (r.type, r.amount)) =
      .ok ("BatchWithdraw(Reward+Commission)", .str "150denom (R:100+C:50)") :=
  c5_batch_withdraw_aggregation dec0 "cosmos1d" "cosmosvaloper1v" _
    (by decide) (by decide) (Or.inl rfl)

/-- The wallet insert is skipped when nothing is relevant or the key is
already present. -/
theorem wApply_noop (w : Wallet) (pr : TxWork) (db : Db)
    (h : pr.myW = [] ∨ hasWKey db pr.hashS w.id = true) :
    wApply w pr db = (db, 0, []) := by
  obtain ⟨hs, hh, tr, ts, pc, pt, pa, prc, myW, myV⟩ := pr
  rcases h with h | h
  · simp only at h
    subst h
    rfl
  · cases myW with
    | nil => rfl
    | cons f rest => simp only at h; simp [wApply, h]

/-- The validator insert is skipped when the wallet has no validator role,
nothing is relevant or the key is already present. -/
theorem vApply_noop (w : Wallet) (pr : TxWork) (db : Db)
    (h : optStrTruthy w.valAddress = false ∨ pr.myV = [] ∨ hasVKey db pr.hashS w.id = true) :
    vApply w pr db = (db, 0, []) := by
  obtain ⟨hs, hh, tr, ts, pc, pt, pa, prc, myW, myV⟩ := pr
  rcases h with h | h | h
  · simp [vApply, h]
  · simp only at h
    subst h
    by_cases hv : optStrTruthy w.valAddress <;> simp [vApply, hv]
  · simp only at h
    cases myV with
    | nil => by_cases hv : optStrTruthy w.valAddress <;> simp [vApply, hv]
    | cons f rest => by_cases hv : optStrTruthy w.valAddress <;> simp [vApply, hv, h]

/-- The wallet insert only appends wallet records and never touches the
validator set. -/
theorem wApply_extends (w : Wallet) (pr : TxWork) (db : Db) :
    (∃ tl, (wApply w pr db).1.wtx = db.wtx ++ tl) ∧ (wApply w pr db).1.vtx = db.vtx := by
  obtain ⟨hs, hh, tr, ts, pc, pt, pa, prc, myW, myV⟩ := pr
  cases myW with
  | nil => exact ⟨⟨[], by simp [wApply]⟩, rfl⟩
  | cons f rest =>
    by_cases hk : hasWKey db hs w.id
    · exact ⟨⟨[], by simp [wApply, hk]⟩, by simp [wApply, hk]⟩
    · constructor
      · simp only [wApply]
        rw [if_neg hk]
        exact ⟨_, rfl⟩
      · simp only [wApply]
        rw [if_neg hk]

/-- The validator insert only appends validator records and never touches the
wallet set. -/
theorem vApply_extends (w : Wallet) (pr : TxWork) (db : Db) :
    (∃ tl, (vApply w pr db).1.vtx = db.vtx ++ tl) ∧ (vApply w pr db).1.wtx = db.wtx := by
  obtain ⟨hs, hh, tr, ts, pc, pt, pa, prc, myW, myV⟩ := pr
  by_cases hv : optStrTruthy w.valAddress
  · cases myV with
    | nil => exact ⟨⟨[], by simp [vApply, hv]⟩, by simp [vApply, hv]⟩
    | cons f rest =>
      by_cases hk : hasVKey db hs w.id
      · exact ⟨⟨[], by simp [vApply, hv, hk]⟩, by simp [vApply, hv, hk]⟩
      · constructor
        · simp only [vApply, hv, Bool.not_true]
          rw [if_neg (by simp), if_neg hk]
          exact ⟨_, rfl⟩
        · simp only [vApply, hv, Bool.not_true]
          rw [if_neg (by simp), if_neg hk]
  · exact ⟨⟨[], by simp [vApply, hv]⟩, by simp [vApply, hv]⟩

/-- A relevant envelope's wallet key is present after the wallet insert
decision. -/
theorem wApply_key (w : Wallet) (pr : TxWork) (db : Db) (h : pr.myW ≠ []) :
    hasWKey (wApply w pr db).1 pr.hashS w.id = true := by
  obtain ⟨hs, hh, tr, ts, pc, pt, pa, prc, myW, myV⟩ := pr
  cases myW with
  | nil => exact absurd rfl h
  | cons f rest =>
    by_cases hk : hasWKey db hs w.id
    · simp [wApply, hk]
    · simp only [wApply]
      rw [if_neg hk]
      simp [hasWKey, List.any_append]

/-- A relevant envelope's validator key is present after the validator
insert decision. -/
theorem vApply_key (w : Wallet) (pr : TxWork) (db : Db)
    (hv : optStrTruthy w.valAddress = true) (h : pr.myV ≠ []) :
    hasVKey (vApply w pr db).1 pr.hashS w.id = true := by
  obtain ⟨hs, hh, tr, ts, pc, pt, pa, prc, myW, myV⟩ := pr
  cases myV with
  | nil => exact absurd rfl h
  | cons f rest =>
    by_cases hk : hasVKey db hs w.id
    · simp [vApply, hv, hk]
    · simp only [vApply, hv, Bool.not_true]
      rw [if_neg (by simp), if_neg hk]
      simp [hasVKey, List.any_append]

/-- Wallet-key membership is preserved by appending records. -/
theorem hasWKey_mono {db db' : Db} {hs : String} {wid : Nat}
    (he : ∃ tl, db'.wtx = db.wtx ++ tl) (h : hasWKey db hs wid = true) :
    hasWKey db' hs wid = true := by
  obtain ⟨tl, htl⟩ := he
  simp only [hasWKey] at h ⊢
  rw [htl, List.any_append, h]
  rfl

/-- Validator-key membership is preserved by appending records. -/
theorem hasVKey_mono {db db' : Db} {hs : String} {wid : Nat}
    (he : ∃ tl, db'.vtx = db.vtx ++ tl) (h : hasVKey db hs wid = true) :
    hasVKey db' hs wid = true := by
  obtain ⟨tl, htl⟩ := he
  simp only [hasVKey] at h ⊢
  rw [htl, List.any_append, h]
  rfl

/-- One transaction step only appends to either record set. -/
theorem stepTx_extends {dec : String → Option Js} {w : Wallet} {t : Js} {db db' : Db}
    {c : Nat} {f : List Notif}
    (h : stepTx dec w t db = .ok (db', c, f)) :
    (∃ tl, db'.wtx = db.wtx ++ tl) ∧ (∃ tl, db'.vtx = db.vtx ++ tl) := by
  unfold stepTx at h
  rcases hp : txPrep dec w t with e | o
  · rw [hp] at h
    simp [bind, Except.bind] at h
  · rw [hp] at h
    cases o with
    | none =>
      simp [bind, Except.bind, pure, Except.pure] at h
      obtain ⟨h1, _, _⟩ := h
      subst h1
      exact ⟨⟨[], by simp⟩, ⟨[], by simp⟩⟩
    | some pr =>
      simp only [bind, Except.bind, pure, Except.pure] at h
      rcases hW : wApply w pr db with ⟨db1, cW, fW⟩
      rcases hV : vApply w pr db1 with ⟨db2, cV, fV⟩
      rw [hW, hV] at h
      simp only [Except.ok.injEq, Prod.mk.injEq] at h
      obtain ⟨h1, _, _⟩ := h
      subst h1
      have hwe := wApply_extends w pr db
      have hve := vApply_extends w pr db1
      rw [hW] at hwe
      rw [hV] at hve
      obtain ⟨⟨tw, htw⟩, hwv⟩ := hwe
      obtain ⟨⟨tv, htv⟩, hvw⟩ := hve
      constructor
      · exact ⟨tw, by rw [hvw]; exact htw⟩
      · exact ⟨tv, by rw [htv, hwv]⟩

/-- A step that succeeds leaves its own transaction a no-op against the
resulting state. -/
theorem stepTx_sets_keys {dec : String → Option Js} {w : Wallet} {t : Js} {db db' : Db}
    {c : Nat} {f : List Notif}
    (h : stepTx dec w t db = .ok (db', c, f)) :
    noopAt dec w t db' := by
  unfold stepTx at h
  rcases hp : txPrep dec w t with e | o
  · rw [hp] at h
    simp [bind, Except.bind] at h
  · rw [hp] at h
    cases o with
    | none => simp [noopAt, hp]
    | some pr =>
      simp only [bind, Except.bind, pure, Except.pure] at h
      rcases hW : wApply w pr db with ⟨db1, cW, fW⟩
      rcases hV : vApply w pr db1 with ⟨db2, cV, fV⟩
      rw [hW, hV] at h
      simp only [Except.ok.injEq, Prod.mk.injEq] at h
      obtain ⟨h1, _, _⟩ := h
      subst h1
      simp only [noopAt, hp]
      constructor
      · by_cases hmw : pr.myW = []
        · exact Or.inl hmw
        · right
          have hk := wApply_key w pr db hmw
          rw [hW] at hk
          have hve := vApply_extends w pr db1
          rw [hV] at hve
          exact hasWKey_mono ⟨[], by rw [hve.2]; simp⟩ hk
      · by_cases hv : optStrTruthy w.valAddress
        · by_cases hmv : pr.myV = []
          · exact Or.inr (Or.inl hmv)
          · right; right
            have hk := vApply_key w pr db1 hv hmv
            rw [hV] at hk
            exact hk
        · exact Or.inl (by simpa using hv)

/-- A no-op transaction's step returns the state unchanged with no insert
and no notification. -/
theorem stepTx_noop {dec : String → Option Js} {w : Wallet} {t : Js} {db : Db}
    (h : noopAt dec w t db) :
    stepTx dec w t db = .ok (db, 0, []) := by
  unfold noopAt at h
  unfold stepTx
  rcases hp : txPrep dec w t with e | o
  · rw [hp] at h
    simp at h
  · rw [hp] at h
    cases o with
    | none => simp [bind, Except.bind, pure, Except.pure]
    | some pr =>
      simp only at h
      have hW := wApply_noop w pr db h.1
      have hV := vApply_noop w pr db h.2
      simp [bind, Except.bind, pure, Except.pure, hW, hV]

/-- Key-membership facts transfer along extensions of the store. -/
theorem noopAt_mono {dec : String → Option Js} {w : Wallet} {t : Js} {db db' : Db}
    (h : noopAt dec w t db)
    (hw : ∃ tl, db'.wtx = db.wtx ++ tl) (hv : ∃ tl, db'.vtx = db.vtx ++ tl) :
    noopAt dec w t db' := by
  unfold noopAt at h ⊢
  rcases hp : txPrep dec w t with e | o
  · rw [hp] at h
    exact h
  · rw [hp] at h
    cases o with
    | none => trivial
    | some pr =>
      simp only at h ⊢
      obtain ⟨h1, h2⟩ := h
      constructor
      · rcases h1 with h1 | h1
        · exact Or.inl h1
        · exact Or.inr (hasWKey_mono hw h1)
      · rcases h2 with h2 | h2 | h2
        · exact Or.inl h2
        · exact Or.inr (Or.inl h2)
        · exact Or.inr (Or.inr (hasVKey_mono hv h2))

/-- The page loop only appends to either record set. -/
theorem goTxs_extends {dec : String → Option Js} {w : Wallet} :
    ∀ {ts : List Js} {db db' : Db} {c : Nat} {f : List Notif},
    goTxs dec w ts db = .ok (db', c, f) →
    (∃ tl, db'.wtx = db.wtx ++ tl) ∧ (∃ tl, db'.vtx = db.vtx ++ tl) := by
  intro ts
  induction ts with
  | nil =>
    intro db db' c f h
    simp only [goTxs, Except.ok.injEq, Prod.mk.injEq] at h
    obtain ⟨h1, _, _⟩ := h
    subst h1
    exact ⟨⟨[], by simp⟩, ⟨[], by simp⟩⟩
  | cons t ts ih =>
    intro db db' c f h
    rw [goTxs] at h
    rcases hs : stepTx dec w t db with e | ⟨db1, c1, f1⟩
    · rw [hs] at h; simp at h
    · rw [hs] at h
      dsimp only at h
      rcases hg : goTxs dec w ts db1 with e2 | ⟨db2, c2, f2⟩
      · rw [hg] at h; simp at h
      · rw [hg] at h
        simp only [Except.ok.injEq, Prod.mk.injEq] at h
        obtain ⟨h1, _, _⟩ := h
        subst h1
        obtain ⟨⟨tw1, hw1⟩, ⟨tv1, hv1⟩⟩ := stepTx_extends hs
        obtain ⟨⟨tw2, hw2⟩, ⟨tv2, hv2⟩⟩ := ih hg
        exact ⟨⟨tw1 ++ tw2, by rw [hw2, hw1, List.append_assoc]⟩,
               ⟨tv1 ++ tv2, by rw [hv2, hv1, List.append_assoc]⟩⟩

/-- After a successful page run, every envelope of the page is a no-op
against the resulting state. -/
theorem goTxs_all_noop_after {dec : String → Option Js} {w : Wallet} :
    ∀ {ts : List Js} {db db' : Db} {c : Nat} {f : List Notif},
    goTxs dec w ts db = .ok (db', c, f) →
    ∀ t ∈ ts, noopAt dec w t db' := by
  intro ts
  induction ts with
  | nil => intro db db' c f h t ht; simp at ht
  | cons t0 ts ih =>
    intro db db' c f h t ht
    rw [goTxs] at h
    rcases hs : stepTx dec w t0 db with e | ⟨db1, c1, f1⟩
    · rw [hs] at h; simp at h
    · rw [hs] at h
      dsimp only at h
      rcases hg : goTxs dec w ts db1 with e2 | ⟨db2, c2, f2⟩
      · rw [hg] at h; simp at h
      · rw [hg] at h
        simp only [Except.ok.injEq, Prod.mk.injEq] at h
        obtain ⟨h1, _, _⟩ := h
        subst h1
        rcases List.mem_cons.mp ht with rfl | ht'
        · obtain ⟨hw, hv⟩ := goTxs_extends hg
          exact noopAt_mono (stepTx_sets_keys hs) hw hv
        · exact ih hg t ht'

/-- A page whose envelopes are all no-ops leaves the store unchanged, counts
nothing and dispatches nothing. -/
theorem goTxs_noop {dec : String → Option Js} {w : Wallet} :
    ∀ {ts : List Js} {db : Db},
    (∀ t ∈ ts, noopAt dec w t db) →
    goTxs dec w ts db = .ok (db, 0, []) := by
  intro ts
  induction ts with
  | nil => intro db _; rfl
  | cons t0 ts ih =>
    intro db h
    rw [goTxs]
    rw [stepTx_noop (h t0 (List.mem_cons_self t0 ts))]
    dsimp only
    rw [ih (fun t ht => h t (List.mem_cons_of_mem t0 ht))]
    simp

/-- C1: reprocessing the same page over the state the first run produced
changes neither record set and creates zero records; when the first run
committed (no throw and rollback), the second run also dispatches no
notification — for every envelope whose (hash, walletId) key is already
present in a category, the pre-insert existence check skips the creation,
the notification and the counter for that category. -/
theorem c1_crawl_idempotent :
    ∀ (dec : String → Option Js) (w : Wallet) (txs : List Js) (db : Db),
    (processPage dec w txs (processPage dec w txs db).1).1 = (processPage dec w txs db).1 ∧
    (processPage dec w txs (processPage dec w txs db).1).2.1 = 0 ∧
    ((goTxs dec w txs db).isOk = true →
      processPage dec w txs (processPage dec w txs db).1 =
        ((processPage dec w txs db).1, 0, [])) := by
  intro dec w txs db
  rcases hgo : goTxs dec w txs db with f | ⟨db', c, f⟩
  · simp [processPage, hgo, Except.isOk, Except.toBool]
  · have hnoop :=
      goTxs_noop (fun t ht => goTxs_all_noop_after hgo t ht)
    simp [processPage, hgo, hnoop]

/-- Witness for C1: a concrete send envelope inserted on the first run is
skipped by the second. -/
theorem c1_crawl_idempotent_witness :
    processPage dec0 witWallet [witTx] (processPage dec0 witWallet [witTx] ⟨[], []⟩).1 =
      ((processPage dec0 witWallet [witTx] ⟨[], []⟩).1, 0, []) :=
  (c1_crawl_idempotent dec0 witWallet [witTx] ⟨[], []⟩).2.2 (by
    simp [goTxs, stepTx, txPrep, witWallet, witTx, extractAllMessages, parseMessage,
      TxParser.parse, TxParser.extractByPattern, TxParser.initResult,
      TxParser.extractAmountFromLogs, TxParser.extractRecipientFromEvents,
      TxParser.extractRecipientFromLogs, TxParser.recipScan, TxParser.recipHit,
      jsLenGt1, jsLenOpt, Js.getE, Js.get, getInFields, Js.optGet, jsOr, Js.truthy,
      Js.isArr, Js.elems, Js.iterE, Js.idx, Js.eqStr, Js.asStrE, Js.toStr, jsNumber,
      splitLast, lastSegAux, strContains, containsL, isPrefixL, optStrTruthy,
      wApply, vApply, hasWKey, hasVKey, decNat, Except.isOk, Except.toBool,
      bind, Except.bind, pure, Except.pure, Except.instMonad, List.mapM, List.mapM.loop])
